import Mathlib

/-!
# 16x2 LCD, 4-bit mode driver (`Core/Src/lcd.c`, `Core/Inc/lcd.h`)

A shallow embedding of the driver.  Every C function `lcd_*` becomes a function
`World → World`, where a `World` is the handle `LCD_t` together with the list of
pin writes and delays performed so far (oldest first).  Machine integers are
natural numbers; a conversion to `uint8_t` is written `u8`.
-/

namespace LCD

/-! ## Data model -/

/-- The seven lines of the handle, `XX` standing for the pair `XX_port`, `XX_pin`. -/
inductive Role where
  | EN | RW | RS | D7 | D6 | D5 | D4
  deriving DecidableEq, Repr

/-- The handle, `LCD_t` of `lcd.h`: seven port/pin pairs, then the soft state. -/
structure LCD_t where
  EN_port : Nat
  EN_pin : Nat
  RW_port : Nat
  RW_pin : Nat
  RS_port : Nat
  RS_pin : Nat
  D7_port : Nat
  D7_pin : Nat
  D6_port : Nat
  D6_pin : Nat
  D5_port : Nat
  D5_pin : Nat
  D4_port : Nat
  D4_pin : Nat
  delay : Nat
  displayCtrl : Nat
  deriving DecidableEq, Repr

/-- One observable action of the driver: a pin write or a blocking delay.  A write
records the line of the handle it went through, the port and pin read from the
handle, and the level passed. -/
inductive Event where
  | write (role : Role) (port pin : Nat) (level : Nat)
  | delay (ms : Nat)
  deriving DecidableEq, Repr

/-- The handle and the events performed so far, oldest first. -/
structure World where
  lcd : LCD_t
  trace : List Event
  deriving DecidableEq, Repr

/-- Conversion of an `int` expression to `uint8_t`. -/
def u8 (n : Nat) : Nat := n % 256

/-! ## Constants of `lcd.h` -/

def LCD_CMD_CLEAR_DISPLAY : Nat := 0b00000001
def LCD_CMD_RETURN_HOME : Nat := 0b00000010
def LCD_CMD_ENTRY_MODE : Nat := 0b00000100
def LCD_CMD_DISPLAY_CTRL : Nat := 0b00001000
def LCD_CMD_DISPLAY_SHIFT : Nat := 0b00010000
def LCD_CMD_FUNCTION_SET : Nat := 0b00100000
def LCD_CMD_SET_CGRAM_ADR : Nat := 0b01000000
def LCD_CMD_SET_DDRAM_ADR : Nat := 0b10000000

def LCD_DISPLAY_ON : Nat := 1
def LCD_DISPLAY_OFF : Nat := 0
def LCD_SHOW_CURSOR : Nat := 1
def LCD_HIDE_CURSOR : Nat := 0
def LCD_BLINK_ON : Nat := 1
def LCD_BLINK_OFF : Nat := 0
def LCD_SHIFT_RIGHT : Nat := 1
def LCD_SHIFT_LEFT : Nat := 0

def GPIO_PIN_RESET : Nat := 0
def GPIO_PIN_SET : Nat := 1

/-- The bitwise complement `~m` of a small `int` constant, as the 32-bit pattern
it is and-ed with (`~(0x4)` is `0xFFFFFFFB`). -/
def compl32 (m : Nat) : Nat := 0xFFFFFFFF ^^^ m

/-! ## The two primitives of the platform -/

/-- Modelled from the spec: the pin-write primitive `setPin(pinId, level)`
(`HAL_GPIO_WritePin` belongs to the platform library, not to the driver); the
write is appended to the trace. -/
def HAL_GPIO_WritePin (role : Role) (port pin level : Nat) (w : World) : World :=
  { w with trace := w.trace ++ [Event.write role port pin level] }

/-- Modelled from the spec: the blocking primitive `delay(milliseconds)`
(`HAL_Delay` belongs to the platform library); the delay is appended to the
trace. -/
def HAL_Delay (ms : Nat) (w : World) : World :=
  { w with trace := w.trace ++ [Event.delay ms] }

/-! ## The driver, function by function -/

/-- The function `lcd_setDelay` (lcd.c 27-35). -/
def lcd_setDelay (delay : Nat) (w : World) : World :=
  let delay := if delay < 1 then 1 else delay
  { w with lcd := { w.lcd with delay := delay } }

/-- The function `lcd_pulseEn` (lcd.c 49-55). -/
def lcd_pulseEn (w : World) : World :=
  let w := HAL_GPIO_WritePin Role.EN w.lcd.EN_port w.lcd.EN_pin GPIO_PIN_SET w
  let w := HAL_Delay w.lcd.delay w
  HAL_GPIO_WritePin Role.EN w.lcd.EN_port w.lcd.EN_pin GPIO_PIN_RESET w

/-- The function `lcd_writeCommand` (lcd.c 69-89). -/
def lcd_writeCommand (cmd : Nat) (w : World) : World :=
  let w := HAL_GPIO_WritePin Role.RS w.lcd.RS_port w.lcd.RS_pin GPIO_PIN_RESET w
  let w := HAL_GPIO_WritePin Role.RW w.lcd.RW_port w.lcd.RW_pin GPIO_PIN_RESET w
  let w := HAL_GPIO_WritePin Role.D4 w.lcd.D4_port w.lcd.D4_pin ((cmd >>> 4) &&& 0x1) w
  let w := HAL_GPIO_WritePin Role.D5 w.lcd.D5_port w.lcd.D5_pin ((cmd >>> 5) &&& 0x1) w
  let w := HAL_GPIO_WritePin Role.D6 w.lcd.D6_port w.lcd.D6_pin ((cmd >>> 6) &&& 0x1) w
  let w := HAL_GPIO_WritePin Role.D7 w.lcd.D7_port w.lcd.D7_pin ((cmd >>> 7) &&& 0x1) w
  let w := lcd_pulseEn w
  let w := HAL_GPIO_WritePin Role.D4 w.lcd.D4_port w.lcd.D4_pin ((cmd >>> 0) &&& 0x1) w
  let w := HAL_GPIO_WritePin Role.D5 w.lcd.D5_port w.lcd.D5_pin ((cmd >>> 1) &&& 0x1) w
  let w := HAL_GPIO_WritePin Role.D6 w.lcd.D6_port w.lcd.D6_pin ((cmd >>> 2) &&& 0x1) w
  let w := HAL_GPIO_WritePin Role.D7 w.lcd.D7_port w.lcd.D7_pin ((cmd >>> 3) &&& 0x1) w
  lcd_pulseEn w

/-- The function `lcd_writeData` (lcd.c 103-123). -/
def lcd_writeData (data : Nat) (w : World) : World :=
  let w := HAL_GPIO_WritePin Role.RS w.lcd.RS_port w.lcd.RS_pin GPIO_PIN_SET w
  let w := HAL_GPIO_WritePin Role.RW w.lcd.RW_port w.lcd.RW_pin GPIO_PIN_RESET w
  let w := HAL_GPIO_WritePin Role.D4 w.lcd.D4_port w.lcd.D4_pin ((data >>> 4) &&& 0x1) w
  let w := HAL_GPIO_WritePin Role.D5 w.lcd.D5_port w.lcd.D5_pin ((data >>> 5) &&& 0x1) w
  let w := HAL_GPIO_WritePin Role.D6 w.lcd.D6_port w.lcd.D6_pin ((data >>> 6) &&& 0x1) w
  let w := HAL_GPIO_WritePin Role.D7 w.lcd.D7_port w.lcd.D7_pin ((data >>> 7) &&& 0x1) w
  let w := lcd_pulseEn w
  let w := HAL_GPIO_WritePin Role.D4 w.lcd.D4_port w.lcd.D4_pin ((data >>> 0) &&& 0x1) w
  let w := HAL_GPIO_WritePin Role.D5 w.lcd.D5_port w.lcd.D5_pin ((data >>> 1) &&& 0x1) w
  let w := HAL_GPIO_WritePin Role.D6 w.lcd.D6_port w.lcd.D6_pin ((data >>> 2) &&& 0x1) w
  let w := HAL_GPIO_WritePin Role.D7 w.lcd.D7_port w.lcd.D7_pin ((data >>> 3) &&& 0x1) w
  lcd_pulseEn w

/-- The function `lcd_clearDisplay` (lcd.c 138-141). -/
def lcd_clearDisplay (w : World) : World :=
  lcd_writeCommand LCD_CMD_CLEAR_DISPLAY w

/-- The function `lcd_returnHome` (lcd.c 157-160). -/
def lcd_returnHome (w : World) : World :=
  lcd_writeCommand LCD_CMD_RETURN_HOME w

/-- The function `lcd_setEntryMode` (lcd.c 177-182). -/
def lcd_setEntryMode (increment display_shift : Nat) (w : World) : World :=
  lcd_writeCommand (u8 (LCD_CMD_ENTRY_MODE ||| (increment <<< 1) ||| display_shift)) w

/-- The function `lcd_displayCtrl` (lcd.c 199-204). -/
def lcd_displayCtrl (display_on : Nat) (w : World) : World :=
  let w := { w with lcd := { w.lcd with
    displayCtrl := u8 ((w.lcd.displayCtrl &&& compl32 0x4) ||| (display_on <<< 2)) } }
  lcd_writeCommand w.lcd.displayCtrl w

/-- The function `lcd_showCursor` (lcd.c 221-226). -/
def lcd_showCursor (show_cursor : Nat) (w : World) : World :=
  let w := { w with lcd := { w.lcd with
    displayCtrl := u8 ((w.lcd.displayCtrl &&& compl32 0x2) ||| (show_cursor <<< 1)) } }
  lcd_writeCommand w.lcd.displayCtrl w

/-- The function `lcd_cursorBlink` (lcd.c 243-248). -/
def lcd_cursorBlink (blink_on : Nat) (w : World) : World :=
  let w := { w with lcd := { w.lcd with
    displayCtrl := u8 ((w.lcd.displayCtrl &&& compl32 0x1) ||| blink_on) } }
  lcd_writeCommand w.lcd.displayCtrl w

/-- The function `lcd_cursorShift` (lcd.c 265-270). -/
def lcd_cursorShift (direction : Nat) (w : World) : World :=
  lcd_writeCommand (u8 ((LCD_CMD_DISPLAY_SHIFT &&& compl32 0x8) ||| (direction <<< 2))) w

/-- The function `lcd_displayShift` (lcd.c 287-292). -/
def lcd_displayShift (direction : Nat) (w : World) : World :=
  lcd_writeCommand (u8 (LCD_CMD_DISPLAY_SHIFT ||| 0x8 ||| (direction <<< 2))) w

/-- The function `lcd_setCursor` (lcd.c 309-312). -/
def lcd_setCursor (row col : Nat) (w : World) : World :=
  lcd_writeCommand (u8 (LCD_CMD_SET_DDRAM_ADR ||| (row <<< 6) ||| col)) w

/-- The `while (i < 8)` loop of `lcd_setPattern` (lcd.c 356-361), entered with
the counter at `i`; `n` bounds the number of iterations left (`8 - i` suffices).
`pattern j` is the byte `*(pattern + j)`. -/
def lcd_setPattern_loop (pattern : Nat → Nat) : Nat → Nat → World → World
  | 0, _, w => w
  | n + 1, i, w =>
    if i < 8 then
      lcd_setPattern_loop pattern n (i + 1) (lcd_writeData (pattern i) w)
    else w

/-- The function `lcd_setPattern` (lcd.c 339-366).  The local `delay` is a
`uint8_t`, so the saved value is the handle's delay converted to 8 bits. -/
def lcd_setPattern (pattern_id : Nat) (pattern : Nat → Nat) (w : World) : World :=
  let delay := u8 w.lcd.delay
  let w := lcd_setDelay 1 w
  let pattern_id := if pattern_id < 0 ∨ pattern_id > 7 then 0 else pattern_id
  let w := lcd_writeCommand (u8 (LCD_CMD_SET_CGRAM_ADR ||| (pattern_id <<< 3))) w
  let w := lcd_setPattern_loop pattern 8 0 w
  let w := lcd_clearDisplay w
  lcd_setDelay delay w

/-- The function `lcd_printChar` (lcd.c 403-406). -/
def lcd_printChar (pattern_id : Nat) (w : World) : World :=
  lcd_writeData pattern_id w

/-- The function `lcd_reset` (lcd.c 421-433). -/
def lcd_reset (w : World) : World :=
  let w := lcd_setDelay 0 w
  let w := { w with lcd := { w.lcd with displayCtrl := LCD_CMD_DISPLAY_CTRL } }
  let w := lcd_writeCommand 0x33 w
  let w := lcd_writeCommand 0x32 w
  lcd_writeCommand 0x28 w

/-- The function `lcd_init` (lcd.c 446-456). -/
def lcd_init (w : World) : World :=
  let w := lcd_reset w
  let w := lcd_displayCtrl LCD_DISPLAY_ON w
  let w := lcd_showCursor LCD_SHOW_CURSOR w
  let w := lcd_clearDisplay w
  lcd_setEntryMode 1 0 w

/-! ## Reading a trace: the bus as the controller sees it -/

/-- The levels last written to the lines (0 low, 1 high) and, while Enable is
high, the milliseconds it has been held. -/
structure Bus where
  EN : Nat
  RW : Nat
  RS : Nat
  D7 : Nat
  D6 : Nat
  D5 : Nat
  D4 : Nat
  held : Nat
  deriving DecidableEq, Repr

/-- One Enable pulse: the Register-Select and Read/Write levels, the nibble on
D4..D7 and the time Enable was held high. -/
structure Pulse where
  rs : Nat
  rw : Nat
  nibble : Nat
  held : Nat
  deriving DecidableEq, Repr

/-- The line level a written value produces: low for 0, high otherwise. -/
def level (v : Nat) : Nat := if v = 0 then 0 else 1

/-- The nibble on the data lines, bit `n` taken from `D(4+n)`. -/
def Bus.nibble (b : Bus) : Nat :=
  b.D4 ||| (b.D5 <<< 1) ||| (b.D6 <<< 2) ||| (b.D7 <<< 3)

/-- The bus after one event, and the pulse the event completes, if any: a pulse
starts when Enable is written high and is completed when Enable is written low
again. -/
def Bus.step (b : Bus) : Event → Bus × Option Pulse
  | Event.delay ms => ({ b with held := if b.EN = 0 then b.held else b.held + ms }, none)
  | Event.write Role.EN _ _ v =>
    if level v = 1 then ({ b with EN := 1, held := 0 }, none)
    else if b.EN = 0 then (b, none)
    else ({ b with EN := 0 }, some ⟨b.RS, b.RW, b.nibble, b.held⟩)
  | Event.write Role.RW _ _ v => ({ b with RW := level v }, none)
  | Event.write Role.RS _ _ v => ({ b with RS := level v }, none)
  | Event.write Role.D7 _ _ v => ({ b with D7 := level v }, none)
  | Event.write Role.D6 _ _ v => ({ b with D6 := level v }, none)
  | Event.write Role.D5 _ _ v => ({ b with D5 := level v }, none)
  | Event.write Role.D4 _ _ v => ({ b with D4 := level v }, none)

/-- The Enable pulses of a trace, in order, read from the bus state `b`. -/
def pulsesFrom (b : Bus) : List Event → List Pulse
  | [] => []
  | e :: es =>
    match (b.step e).2 with
    | some p => p :: pulsesFrom (b.step e).1 es
    | none => pulsesFrom (b.step e).1 es

/-- The bus after a trace. -/
def busAfter (b : Bus) : List Event → Bus
  | [] => b
  | e :: es => busAfter (b.step e).1 es

/-- One byte transferred to the controller: the register selected (0 instruction,
1 data) and the byte. -/
structure Transfer where
  rs : Nat
  byte : Nat
  deriving DecidableEq, Repr

/-- The bytes a list of pulses carries: two pulses per byte, upper nibble first. -/
def transfers : List Pulse → List Transfer
  | p1 :: p2 :: ps => ⟨p1.rs, (p1.nibble <<< 4) ||| p2.nibble⟩ :: transfers ps
  | _ => []

/-- The events an operation appends to the trace when run on the handle `lcd`. -/
def emitted (op : World → World) (lcd : LCD_t) : List Event :=
  (op ⟨lcd, []⟩).trace

/-- The trace of `lcd_writeCommand cmd` written out: sixteen events. -/
def commandEvents (lcd : LCD_t) (cmd : Nat) : List Event :=
  [ Event.write Role.RS lcd.RS_port lcd.RS_pin 0,
    Event.write Role.RW lcd.RW_port lcd.RW_pin 0,
    Event.write Role.D4 lcd.D4_port lcd.D4_pin ((cmd >>> 4) &&& 1),
    Event.write Role.D5 lcd.D5_port lcd.D5_pin ((cmd >>> 5) &&& 1),
    Event.write Role.D6 lcd.D6_port lcd.D6_pin ((cmd >>> 6) &&& 1),
    Event.write Role.D7 lcd.D7_port lcd.D7_pin ((cmd >>> 7) &&& 1),
    Event.write Role.EN lcd.EN_port lcd.EN_pin 1,
    Event.delay lcd.delay,
    Event.write Role.EN lcd.EN_port lcd.EN_pin 0,
    Event.write Role.D4 lcd.D4_port lcd.D4_pin ((cmd >>> 0) &&& 1),
    Event.write Role.D5 lcd.D5_port lcd.D5_pin ((cmd >>> 1) &&& 1),
    Event.write Role.D6 lcd.D6_port lcd.D6_pin ((cmd >>> 2) &&& 1),
    Event.write Role.D7 lcd.D7_port lcd.D7_pin ((cmd >>> 3) &&& 1),
    Event.write Role.EN lcd.EN_port lcd.EN_pin 1,
    Event.delay lcd.delay,
    Event.write Role.EN lcd.EN_port lcd.EN_pin 0 ]

/-- The trace of `lcd_writeData data` written out: as `commandEvents`, with
Register-Select written high. -/
def dataEvents (lcd : LCD_t) (data : Nat) : List Event :=
  Event.write Role.RS lcd.RS_port lcd.RS_pin 1 :: (commandEvents lcd data).tail

/-- A handle to evaluate on: seven distinct pins, delay 5, display state 0x0C. -/
def sampleLcd : LCD_t :=
  { EN_port := 0x40020000, EN_pin := 1, RW_port := 0x40020000, RW_pin := 2,
    RS_port := 0x40020000, RS_pin := 4, D7_port := 0x40020400, D7_pin := 8,
    D6_port := 0x40020400, D6_pin := 16, D5_port := 0x40020400, D5_pin := 32,
    D4_port := 0x40020400, D4_pin := 64, delay := 5, displayCtrl := 0x0C }

/-- An eight-row glyph, the example of the source comment. -/
def samplePattern (i : Nat) : Nat :=
  [0b00100, 0b01110, 0b00100, 0b01110, 0b00100, 0b01110, 0b00100, 0b01110].getD i 0

/-- The trace of one transfer on the handle `lcd`: a command write when the
register selected is 0, a data write otherwise. -/
def transferEvents (lcd : LCD_t) (t : Transfer) : List Event :=
  if t.rs = 0 then commandEvents lcd t.byte else dataEvents lcd t.byte

/-- The Enable writes and the delays of a trace, the other writes dropped. -/
def enableEvents (t : List Event) : List Event :=
  t.filter fun e =>
    match e with
    | Event.write Role.EN _ _ _ => true
    | Event.delay _ => true
    | _ => false

/-- Whether an event is a write to Register-Select. -/
def Event.isRS : Event → Bool
  | Event.write Role.RS _ _ _ => true
  | _ => false

/-- A bus with every line low. -/
def Bus.idle : Bus := ⟨0, 0, 0, 0, 0, 0, 0, 0⟩

/-- A command write as a transfer. -/
def instr (b : Nat) : Transfer := ⟨0, b⟩

/-- A data write as a transfer. -/
def datum (b : Nat) : Transfer := ⟨1, b⟩

/-- The ten transfers of `lcd_setPattern pattern_id pattern`, in order. -/
def patternTransfers (pattern_id : Nat) (pattern : Nat → Nat) : List Transfer :=
  instr (0x40 ||| (pattern_id <<< 3))
    :: (List.range 8).map (fun i => datum (pattern i)) ++ [instr 0x01]

/-- A call of one of the three display-control operations, with its argument. -/
inductive Toggle where
  | displayCtrl (display_on : Nat)
  | showCursor (show_cursor : Nat)
  | cursorBlink (blink_on : Nat)
  deriving DecidableEq, Repr

/-- The call performed. -/
def Toggle.run : Toggle → World → World
  | Toggle.displayCtrl v => lcd_displayCtrl v
  | Toggle.showCursor v => lcd_showCursor v
  | Toggle.cursorBlink v => lcd_cursorBlink v

/-- The argument of the call. -/
def Toggle.arg : Toggle → Nat
  | Toggle.displayCtrl v => v
  | Toggle.showCursor v => v
  | Toggle.cursorBlink v => v

/-- The bit of the cached display state the operation is meant for: 2 for
display on/off, 1 for the cursor, 0 for the blink. -/
def Toggle.bit : Toggle → Nat
  | Toggle.displayCtrl _ => 2
  | Toggle.showCursor _ => 1
  | Toggle.cursorBlink _ => 0

/-- A sequence of calls, performed first to last. -/
def runToggles : List Toggle → World → World
  | [], w => w
  | t :: ts, w => runToggles ts (t.run w)

/-- The argument of the last call in the sequence of the operation meant for bit
`k`, if there is such a call. -/
def lastArg (k : Nat) : List Toggle → Option Nat
  | [] => none
  | t :: ts =>
    match lastArg k ts with
    | some a => some a
    | none => if t.bit = k then some t.arg else none

/-- The `while (*msg != '\0')` loop of `lcd_printMsg` (lcd.c 381-385), with `msg`
advanced `i` bytes; `msg j` is the byte `j` places after the pointer passed.
`fuel` bounds the number of loop tests; `none` when it runs out before a
terminator is read. -/
def lcd_printMsg_loop (msg : Nat → Nat) : Nat → Nat → World → Option World
  | 0, _, _ => none
  | fuel + 1, i, w =>
    if msg i ≠ 0 then
      lcd_printMsg_loop msg fuel (i + 1) (lcd_writeData (msg i) w)
    else some w

/-- The function `lcd_printMsg` (lcd.c 379-386). -/
def lcd_printMsg (msg : Nat → Nat) (fuel : Nat) (w : World) : Option World :=
  lcd_printMsg_loop msg fuel 0 w

/-- The memory at the address of a string constant: the bytes of `text`, then
zero bytes. -/
def cstring (text : List Nat) (i : Nat) : Nat := text.getD i 0

/-! ## Sequences of calls -/

/-- One call of a function declared in `lcd.h`, with the arguments it receives.
The text of `printMsg` is the content of the memory at the pointer passed, which
is followed by zero bytes. -/
inductive Op where
  | setDelay (delay : Nat)
  | pulseEn
  | writeCommand (cmd : Nat)
  | writeData (data : Nat)
  | clearDisplay
  | returnHome
  | setEntryMode (increment display_shift : Nat)
  | displayCtrl (display_on : Nat)
  | showCursor (show_cursor : Nat)
  | cursorBlink (blink_on : Nat)
  | cursorShift (direction : Nat)
  | displayShift (direction : Nat)
  | setCursor (row col : Nat)
  | setPattern (pattern_id : Nat) (pattern : Nat → Nat)
  | printMsg (text : List Nat)
  | printChar (pattern_id : Nat)
  | reset
  | init

/-- The call performed; `none` when `lcd_printMsg` finds no terminator within the
text and the zero byte after it. -/
def Op.run : Op → World → Option World
  | Op.setDelay d, w => some (lcd_setDelay d w)
  | Op.pulseEn, w => some (lcd_pulseEn w)
  | Op.writeCommand c, w => some (lcd_writeCommand c w)
  | Op.writeData d, w => some (lcd_writeData d w)
  | Op.clearDisplay, w => some (lcd_clearDisplay w)
  | Op.returnHome, w => some (lcd_returnHome w)
  | Op.setEntryMode i s, w => some (lcd_setEntryMode i s w)
  | Op.displayCtrl v, w => some (lcd_displayCtrl v w)
  | Op.showCursor v, w => some (lcd_showCursor v w)
  | Op.cursorBlink v, w => some (lcd_cursorBlink v w)
  | Op.cursorShift d, w => some (lcd_cursorShift d w)
  | Op.displayShift d, w => some (lcd_displayShift d w)
  | Op.setCursor r c, w => some (lcd_setCursor r c w)
  | Op.setPattern p pattern, w => some (lcd_setPattern p pattern w)
  | Op.printMsg text, w => lcd_printMsg (cstring text) (text.length + 1) w
  | Op.printChar c, w => some (lcd_printChar c w)
  | Op.reset, w => some (lcd_reset w)
  | Op.init, w => some (lcd_init w)

/-- A sequence of calls, performed first to last. -/
def runOps : List Op → World → Option World
  | [], w => some w
  | op :: ops, w => (op.run w).bind (runOps ops)

/-- Whether the call is a direct call of `lcd_pulseEn`. -/
def Op.isPulseEn : Op → Bool
  | Op.pulseEn => true
  | _ => false

/-- Whether the function called is declared on a `const LCD_t *const` handle and is
neither `lcd_init` nor `lcd_setPattern` (which cast the qualifier away). -/
def Op.readOnly : Op → Bool
  | Op.setDelay _ => false
  | Op.displayCtrl _ => false
  | Op.showCursor _ => false
  | Op.cursorBlink _ => false
  | Op.setPattern _ _ => false
  | Op.reset => false
  | Op.init => false
  | _ => true

/-- Whether the call, when it is one of the three display-control operations, has
its argument in {0, 1}. -/
def Op.toggleArgOk : Op → Bool
  | Op.displayCtrl v => decide (v ≤ 1)
  | Op.showCursor v => decide (v ≤ 1)
  | Op.cursorBlink v => decide (v ≤ 1)
  | _ => true

/-- The seven pin identifiers of a handle, port and pin of each line. -/
def LCD_t.pins (l : LCD_t) : List Nat :=
  [l.EN_port, l.EN_pin, l.RW_port, l.RW_pin, l.RS_port, l.RS_pin, l.D7_port, l.D7_pin,
    l.D6_port, l.D6_pin, l.D5_port, l.D5_pin, l.D4_port, l.D4_pin]

/-- A stretch of a trace: what one call of `lcd_writeCommand`, `lcd_writeData` or
`lcd_pulseEn` emits on the handle `lcd`. -/
inductive Seg where
  | command (lcd : LCD_t) (cmd : Nat)
  | data (lcd : LCD_t) (data : Nat)
  | pulse (lcd : LCD_t)
  deriving DecidableEq, Repr

/-- The events of the stretch. -/
def Seg.events : Seg → List Event
  | Seg.command l c => emitted (lcd_writeCommand c) l
  | Seg.data l d => emitted (lcd_writeData d) l
  | Seg.pulse l => emitted lcd_pulseEn l

/-- The handle the stretch was emitted on. -/
def Seg.lcd : Seg → LCD_t
  | Seg.command l _ => l
  | Seg.data l _ => l
  | Seg.pulse l => l

/-- The bytes the stretch transfers: one for a write, none for a bare pulse. -/
def Seg.bytes : Seg → Nat
  | Seg.command _ _ => 1
  | Seg.data _ _ => 1
  | Seg.pulse _ => 0

/-- Whether the stretch is a bare pulse. -/
def Seg.isPulse : Seg → Bool
  | Seg.pulse _ => true
  | _ => false

/-- The bytes of a text up to the first zero byte. -/
def untilNul : List Nat → List Nat
  | [] => []
  | c :: cs => if c ≠ 0 then c :: untilNul cs else []

/-- The handle a call leaves, from the handle it finds. -/
def Op.handle : Op → LCD_t → LCD_t
  | Op.setDelay d, l => { l with delay := max d 1 }
  | Op.displayCtrl v, l =>
    { l with displayCtrl := u8 ((l.displayCtrl &&& compl32 0x4) ||| (v <<< 2)) }
  | Op.showCursor v, l =>
    { l with displayCtrl := u8 ((l.displayCtrl &&& compl32 0x2) ||| (v <<< 1)) }
  | Op.cursorBlink v, l =>
    { l with displayCtrl := u8 ((l.displayCtrl &&& compl32 0x1) ||| v) }
  | Op.setPattern _ _, l => { l with delay := max (u8 l.delay) 1 }
  | Op.reset, l => { l with delay := 1, displayCtrl := 0x08 }
  | Op.init, l => { l with delay := 1, displayCtrl := 0x0E }
  | _, l => l

/-- The stretches a call emits, from the handle it finds. -/
def Op.segs : Op → LCD_t → List Seg
  | Op.setDelay _, _ => []
  | Op.pulseEn, l => [Seg.pulse l]
  | Op.writeCommand c, l => [Seg.command l c]
  | Op.writeData d, l => [Seg.data l d]
  | Op.clearDisplay, l => [Seg.command l 0x01]
  | Op.returnHome, l => [Seg.command l 0x02]
  | Op.setEntryMode i s, l => [Seg.command l (u8 (0x04 ||| (i <<< 1) ||| s))]
  | Op.displayCtrl v, l =>
    [Seg.command l (u8 ((l.displayCtrl &&& compl32 0x4) ||| (v <<< 2)))]
  | Op.showCursor v, l =>
    [Seg.command l (u8 ((l.displayCtrl &&& compl32 0x2) ||| (v <<< 1)))]
  | Op.cursorBlink v, l =>
    [Seg.command l (u8 ((l.displayCtrl &&& compl32 0x1) ||| v))]
  | Op.cursorShift d, l => [Seg.command l (u8 ((0x10 &&& compl32 0x8) ||| (d <<< 2)))]
  | Op.displayShift d, l => [Seg.command l (u8 (0x10 ||| 0x8 ||| (d <<< 2)))]
  | Op.setCursor r c, l => [Seg.command l (u8 (0x80 ||| (r <<< 6) ||| c))]
  | Op.setPattern p pattern, l =>
    Seg.command { l with delay := 1 } (u8 (0x40 ||| ((if p > 7 then 0 else p) <<< 3)))
      :: (List.range 8).map (fun i => Seg.data { l with delay := 1 } (pattern i))
      ++ [Seg.command { l with delay := 1 } 0x01]
  | Op.printMsg text, l => (untilNul text).map (Seg.data l)
  | Op.printChar c, l => [Seg.data l c]
  | Op.reset, l => [0x33, 0x32, 0x28].map (Seg.command { l with delay := 1 })
  | Op.init, l =>
    [0x33, 0x32, 0x28, 0x0C, 0x0E, 0x01, 0x06].map (Seg.command { l with delay := 1 })

/-- The stretches a sequence of calls emits, from the handle it finds. -/
def segsOf : List Op → LCD_t → List Seg
  | [], _ => []
  | op :: ops, l => op.segs l ++ segsOf ops (op.handle l)

/-- The handle a sequence of calls leaves. -/
def handleAfter : List Op → LCD_t → LCD_t
  | [], l => l
  | op :: ops, l => handleAfter ops (op.handle l)

/-- The pulses of a sequence of stretches, each with the stretch it falls in. -/
def tagPulses (bus : Bus) : List Seg → List (Seg × Pulse)
  | [] => []
  | sg :: sgs =>
    (pulsesFrom bus sg.events).map (fun p => (sg, p)) ++ tagPulses (busAfter bus sg.events) sgs

/-- Where the Enable line stands in a pulse: low, written high, or high and held
for a delay. -/
inductive EnPhase where
  | low | high | held
  deriving DecidableEq, Repr

/-- One event seen from a phase: from low, Enable may go high and the other lines
may be written; once Enable is high exactly one delay must follow, and after it
the write of Enable low.  Anything else is `none`. -/
def EnPhase.step : EnPhase → Event → Option EnPhase
  | EnPhase.low, Event.write Role.EN _ _ v => if level v = 1 then some EnPhase.high else none
  | EnPhase.low, _ => some EnPhase.low
  | EnPhase.high, Event.delay _ => some EnPhase.held
  | EnPhase.high, _ => none
  | EnPhase.held, Event.write Role.EN _ _ v => if level v = 0 then some EnPhase.low else none
  | EnPhase.held, _ => none

/-- The phase after a trace, `none` when the trace breaks the pulse discipline. -/
def enRun (ph : EnPhase) : List Event → Option EnPhase
  | [] => some ph
  | e :: es => (ph.step e).bind fun ph' => enRun ph' es

/-! ## Basic facts -/

theorem lcd_writeCommand_eq (cmd : Nat) (w : World) :
    lcd_writeCommand cmd w = ⟨w.lcd, w.trace ++ commandEvents w.lcd cmd⟩ := by
  simp [lcd_writeCommand, lcd_pulseEn, HAL_GPIO_WritePin, HAL_Delay, commandEvents,
    GPIO_PIN_SET, GPIO_PIN_RESET]

theorem lcd_writeData_eq (data : Nat) (w : World) :
    lcd_writeData data w = ⟨w.lcd, w.trace ++ dataEvents w.lcd data⟩ := by
  simp [lcd_writeData, lcd_pulseEn, HAL_GPIO_WritePin, HAL_Delay, dataEvents, commandEvents,
    GPIO_PIN_SET, GPIO_PIN_RESET]

theorem level_and_one (x : Nat) : level (x &&& 1) = x &&& 1 := by
  have h : x &&& 1 = 0 ∨ x &&& 1 = 1 := by
    rw [Nat.and_one_is_mod]; omega
  rcases h with h | h <;> simp [level, h]

set_option maxRecDepth 100000 in
theorem upper_nibble : ∀ b < 256,
    ((b >>> 4) &&& 1) ||| (((b >>> 5) &&& 1) <<< 1) ||| (((b >>> 6) &&& 1) <<< 2)
      ||| (((b >>> 7) &&& 1) <<< 3) = b >>> 4 := by
  decide

set_option maxRecDepth 100000 in
theorem lower_nibble : ∀ b < 256,
    ((b >>> 0) &&& 1) ||| (((b >>> 1) &&& 1) <<< 1) ||| (((b >>> 2) &&& 1) <<< 2)
      ||| (((b >>> 3) &&& 1) <<< 3) = b &&& 0xF := by
  decide

set_option maxRecDepth 100000 in
theorem nibbles_join : ∀ b < 256, ((b >>> 4) <<< 4) ||| (b &&& 0xF) = b := by
  decide

/-- The pulses of one command write, from any bus state. -/
theorem pulsesFrom_commandEvents (bus : Bus) (lcd : LCD_t) (b : Nat) (hb : b < 256) :
    pulsesFrom bus (commandEvents lcd b)
      = [⟨0, 0, b >>> 4, lcd.delay⟩, ⟨0, 0, b &&& 0xF, lcd.delay⟩] := by
  have hu := upper_nibble b hb
  have hl := lower_nibble b hb
  simp only [Nat.shiftRight_zero, Nat.and_one_is_mod] at hu hl
  have hlev : ∀ x : Nat, level (x % 2) = x % 2 := fun x => by
    rw [← Nat.and_one_is_mod]; exact level_and_one x
  have h0 : level 0 = 0 := rfl
  have h1 : level 1 = 1 := rfl
  simp [commandEvents, pulsesFrom, Bus.step, Bus.nibble, hlev, h0, h1, hu, hl]

/-- The pulses of one data write, from any bus state. -/
theorem pulsesFrom_dataEvents (bus : Bus) (lcd : LCD_t) (b : Nat) (hb : b < 256) :
    pulsesFrom bus (dataEvents lcd b)
      = [⟨1, 0, b >>> 4, lcd.delay⟩, ⟨1, 0, b &&& 0xF, lcd.delay⟩] := by
  have hu := upper_nibble b hb
  have hl := lower_nibble b hb
  simp only [Nat.shiftRight_zero, Nat.and_one_is_mod] at hu hl
  have hlev : ∀ x : Nat, level (x % 2) = x % 2 := fun x => by
    rw [← Nat.and_one_is_mod]; exact level_and_one x
  have h0 : level 0 = 0 := rfl
  have h1 : level 1 = 1 := rfl
  simp [dataEvents, commandEvents, pulsesFrom, Bus.step, Bus.nibble, hlev, h0, h1, hu, hl]

theorem pulsesFrom_append (bus : Bus) (s t : List Event) :
    pulsesFrom bus (s ++ t) = pulsesFrom bus s ++ pulsesFrom (busAfter bus s) t := by
  induction s generalizing bus with
  | nil => rfl
  | cons e es ih =>
    simp only [List.cons_append, pulsesFrom, busAfter]
    cases h : (bus.step e).2 <;> simp [ih]

theorem busAfter_append (bus : Bus) (s t : List Event) :
    busAfter bus (s ++ t) = busAfter (busAfter bus s) t := by
  induction s generalizing bus with
  | nil => rfl
  | cons e es ih => exact ih _

theorem emitted_writeCommand (cmd : Nat) (lcd : LCD_t) :
    emitted (lcd_writeCommand cmd) lcd = commandEvents lcd cmd := by
  simp [emitted, lcd_writeCommand_eq]

theorem emitted_writeData (data : Nat) (lcd : LCD_t) :
    emitted (lcd_writeData data) lcd = dataEvents lcd data := by
  simp [emitted, lcd_writeData_eq]

/-! ## The write protocol -/

/-- C1: for every handle and every byte `b`, among the events `lcd_writeCommand b`
appends, the Enable line sees exactly two pulses (Enable high, a delay of the
handle's delay, Enable low); read from any bus state, the first pulse carries
the nibble `b >> 4` and the second `b & 0xF` on D4..D7 (bit `n` from `D(4+n)`),
and the two nibbles reassemble to `b`. -/
theorem writeCommand_two_pulses_carry_byte (w : World) (bus : Bus) (b : Nat) (hb : b < 256) :
    (lcd_writeCommand b w).trace = w.trace ++ emitted (lcd_writeCommand b) w.lcd
    ∧ enableEvents (emitted (lcd_writeCommand b) w.lcd)
        = [ Event.write Role.EN w.lcd.EN_port w.lcd.EN_pin 1, Event.delay w.lcd.delay,
            Event.write Role.EN w.lcd.EN_port w.lcd.EN_pin 0,
            Event.write Role.EN w.lcd.EN_port w.lcd.EN_pin 1, Event.delay w.lcd.delay,
            Event.write Role.EN w.lcd.EN_port w.lcd.EN_pin 0 ]
    ∧ pulsesFrom bus (emitted (lcd_writeCommand b) w.lcd)
        = [⟨0, 0, b >>> 4, w.lcd.delay⟩, ⟨0, 0, b &&& 0xF, w.lcd.delay⟩]
    ∧ ((b >>> 4) <<< 4) ||| (b &&& 0xF) = b
    ∧ transfers (pulsesFrom bus (emitted (lcd_writeCommand b) w.lcd)) = [⟨0, b⟩] := by
  have hp := pulsesFrom_commandEvents bus w.lcd b hb
  have hj := nibbles_join b hb
  refine ⟨?_, ?_, ?_, hj, ?_⟩
  · simp [emitted_writeCommand, lcd_writeCommand_eq]
  · simp [emitted_writeCommand, commandEvents, enableEvents]
  · rw [emitted_writeCommand]; exact hp
  · rw [emitted_writeCommand, hp]; simp [transfers, hj]

/-- C1 at the byte 0xC5 on the sample handle: two pulses, nibbles 0xC then 0x5. -/
theorem writeCommand_two_pulses_carry_byte_witness :
    0xC5 < 256
    ∧ pulsesFrom Bus.idle (emitted (lcd_writeCommand 0xC5) sampleLcd)
        = [⟨0, 0, 0xC, 5⟩, ⟨0, 0, 0x5, 5⟩] :=
  ⟨by decide,
   (writeCommand_two_pulses_carry_byte ⟨sampleLcd, []⟩ Bus.idle 0xC5 (by decide)).2.2.1⟩

/-- C2: for every handle and every byte, the trace of `lcd_writeData` is the trace
of `lcd_writeCommand` with the one Register-Select write, the first event, changed
from low to high; the fifteen events after it are the same and hold no write to
Register-Select, and neither operation changes the handle. -/
theorem writeData_is_writeCommand_with_RS_high (w : World) (b : Nat) :
    ∃ rest : List Event,
      (lcd_writeCommand b w).trace
          = w.trace ++ Event.write Role.RS w.lcd.RS_port w.lcd.RS_pin 0 :: rest
      ∧ (lcd_writeData b w).trace
          = w.trace ++ Event.write Role.RS w.lcd.RS_port w.lcd.RS_pin 1 :: rest
      ∧ rest.length = 15
      ∧ (∀ e ∈ rest, e.isRS = false)
      ∧ rest.head? = some (Event.write Role.RW w.lcd.RW_port w.lcd.RW_pin 0)
      ∧ enableEvents rest
          = [ Event.write Role.EN w.lcd.EN_port w.lcd.EN_pin 1, Event.delay w.lcd.delay,
              Event.write Role.EN w.lcd.EN_port w.lcd.EN_pin 0,
              Event.write Role.EN w.lcd.EN_port w.lcd.EN_pin 1, Event.delay w.lcd.delay,
              Event.write Role.EN w.lcd.EN_port w.lcd.EN_pin 0 ]
      ∧ (lcd_writeData b w).lcd = w.lcd ∧ (lcd_writeCommand b w).lcd = w.lcd := by
  refine ⟨(commandEvents w.lcd b).tail, ?_, ?_, ?_, ?_, ?_, ?_, ?_, ?_⟩
  · simp [lcd_writeCommand_eq, commandEvents]
  · simp [lcd_writeData_eq, dataEvents]
  · simp [commandEvents]
  · simp [commandEvents, Event.isRS]
  · simp [commandEvents]
  · simp [commandEvents, enableEvents]
  · simp [lcd_writeData_eq]
  · simp [lcd_writeCommand_eq]

/-! ## Sequences of transfers -/

theorem pulsesFrom_transferEvents (bus : Bus) (lcd : LCD_t) (t : Transfer)
    (hrs : t.rs ≤ 1) (hb : t.byte < 256) :
    pulsesFrom bus (transferEvents lcd t)
      = [⟨t.rs, 0, t.byte >>> 4, lcd.delay⟩, ⟨t.rs, 0, t.byte &&& 0xF, lcd.delay⟩] := by
  obtain ⟨rs, b⟩ := t
  simp only at hrs hb
  have h : rs = 0 ∨ rs = 1 := by omega
  rcases h with rfl | rfl
  · simpa [transferEvents] using pulsesFrom_commandEvents bus lcd b hb
  · simpa [transferEvents] using pulsesFrom_dataEvents bus lcd b hb

/-- Read from any bus state, a sequence of command and data writes shows two
pulses per write, with the nibbles of the bytes written, each held for the
handle's delay. -/
theorem pulsesFrom_transfers (lcd : LCD_t) (ts : List Transfer)
    (h : ∀ t ∈ ts, t.rs ≤ 1 ∧ t.byte < 256) (bus : Bus) :
    pulsesFrom bus (ts.flatMap (transferEvents lcd))
      = ts.flatMap fun t =>
          [⟨t.rs, 0, t.byte >>> 4, lcd.delay⟩, ⟨t.rs, 0, t.byte &&& 0xF, lcd.delay⟩] := by
  induction ts generalizing bus with
  | nil => rfl
  | cons t ts ih =>
    have ht := h t (List.mem_cons_self _ _)
    rw [List.flatMap_cons, List.flatMap_cons, pulsesFrom_append,
      pulsesFrom_transferEvents bus lcd t ht.1 ht.2,
      ih (fun u hu => h u (List.mem_cons_of_mem _ hu))]

/-- Read from any bus state, a sequence of command and data writes is recovered
from its trace, byte by byte. -/
theorem transfers_pulsesFrom (lcd : LCD_t) (ts : List Transfer)
    (h : ∀ t ∈ ts, t.rs ≤ 1 ∧ t.byte < 256) (bus : Bus) :
    transfers (pulsesFrom bus (ts.flatMap (transferEvents lcd))) = ts := by
  rw [pulsesFrom_transfers lcd ts h bus]
  clear bus
  induction ts with
  | nil => rfl
  | cons t ts ih =>
    have ht := h t (List.mem_cons_self _ _)
    have hj := nibbles_join t.byte ht.2
    have ih' := ih (fun u hu => h u (List.mem_cons_of_mem _ hu))
    rw [List.flatMap_cons, List.cons_append, List.cons_append, List.nil_append, transfers,
      ih']
    simp only [hj]

/-- Two pulses per write. -/
theorem length_pulsesFrom (lcd : LCD_t) (ts : List Transfer)
    (h : ∀ t ∈ ts, t.rs ≤ 1 ∧ t.byte < 256) (bus : Bus) :
    (pulsesFrom bus (ts.flatMap (transferEvents lcd))).length = 2 * ts.length := by
  rw [pulsesFrom_transfers lcd ts h bus]
  clear h bus
  induction ts with
  | nil => rfl
  | cons t ts ih =>
    rw [List.flatMap_cons, List.length_append, ih, List.length_cons]
    simp only [List.length_cons, List.length_nil]
    omega

/-- Every pulse of a sequence of command and data writes is held for the
handle's delay. -/
theorem held_pulsesFrom (lcd : LCD_t) (ts : List Transfer)
    (h : ∀ t ∈ ts, t.rs ≤ 1 ∧ t.byte < 256) (bus : Bus) :
    ∀ p ∈ pulsesFrom bus (ts.flatMap (transferEvents lcd)), p.held = lcd.delay := by
  rw [pulsesFrom_transfers lcd ts h bus]
  intro p hp
  simp only [List.mem_flatMap, List.mem_cons, List.mem_singleton, List.not_mem_nil,
    or_false] at hp
  obtain ⟨t, -, rfl | rfl⟩ := hp <;> rfl

/-! ## Reset and initialisation -/

theorem lcd_reset_eq (w : World) :
    lcd_reset w =
      ⟨{ w.lcd with delay := 1, displayCtrl := 0x08 },
        w.trace ++ [instr 0x33, instr 0x32, instr 0x28].flatMap
          (transferEvents { w.lcd with delay := 1 })⟩ := by
  simp [lcd_reset, lcd_setDelay, lcd_writeCommand_eq, LCD_CMD_DISPLAY_CTRL, transferEvents,
    instr, commandEvents]

theorem lcd_displayCtrl_eq (display_on : Nat) (w : World) :
    lcd_displayCtrl display_on w =
      ⟨{ w.lcd with
          displayCtrl := u8 ((w.lcd.displayCtrl &&& compl32 0x4) ||| (display_on <<< 2)) },
        w.trace ++ transferEvents w.lcd
          (instr (u8 ((w.lcd.displayCtrl &&& compl32 0x4) ||| (display_on <<< 2))))⟩ := by
  simp [lcd_displayCtrl, lcd_writeCommand_eq, transferEvents, instr, commandEvents]

theorem lcd_showCursor_eq (show_cursor : Nat) (w : World) :
    lcd_showCursor show_cursor w =
      ⟨{ w.lcd with
          displayCtrl := u8 ((w.lcd.displayCtrl &&& compl32 0x2) ||| (show_cursor <<< 1)) },
        w.trace ++ transferEvents w.lcd
          (instr (u8 ((w.lcd.displayCtrl &&& compl32 0x2) ||| (show_cursor <<< 1))))⟩ := by
  simp [lcd_showCursor, lcd_writeCommand_eq, transferEvents, instr, commandEvents]

theorem lcd_cursorBlink_eq (blink_on : Nat) (w : World) :
    lcd_cursorBlink blink_on w =
      ⟨{ w.lcd with
          displayCtrl := u8 ((w.lcd.displayCtrl &&& compl32 0x1) ||| blink_on) },
        w.trace ++ transferEvents w.lcd
          (instr (u8 ((w.lcd.displayCtrl &&& compl32 0x1) ||| blink_on)))⟩ := by
  simp [lcd_cursorBlink, lcd_writeCommand_eq, transferEvents, instr, commandEvents]

theorem lcd_init_eq (w : World) :
    lcd_init w =
      ⟨{ w.lcd with delay := 1, displayCtrl := 0x0E },
        w.trace ++
          [instr 0x33, instr 0x32, instr 0x28, instr 0x0C, instr 0x0E, instr 0x01,
            instr 0x06].flatMap (transferEvents { w.lcd with delay := 1 })⟩ := by
  have h1 : u8 ((0x08 &&& compl32 0x4) ||| (LCD_DISPLAY_ON <<< 2)) = 0x0C := by decide
  have h2 : u8 ((0x0C &&& compl32 0x2) ||| (LCD_SHOW_CURSOR <<< 1)) = 0x0E := by decide
  have h3 : u8 (LCD_CMD_ENTRY_MODE ||| (1 <<< 1) ||| 0) = 0x06 := by decide
  have h4 : LCD_CMD_CLEAR_DISPLAY = 0x01 := rfl
  have hc : ∀ (l : LCD_t) (b : Nat), commandEvents l b = transferEvents l (instr b) :=
    fun _ _ => rfl
  simp only [lcd_init, lcd_reset_eq, lcd_displayCtrl_eq, lcd_showCursor_eq, lcd_clearDisplay,
    lcd_setEntryMode, lcd_writeCommand_eq, h1, h2, h3, h4, hc,
    List.flatMap_cons, List.flatMap_nil, List.append_nil, List.append_assoc]
  simp [transferEvents, instr, commandEvents]

/-- C4: from every handle state, `lcd_reset` leaves delay 1 and cached display
state 0x08, and appends exactly the three command writes 0x33, 0x32, 0x28 in that
order, performed with delay 1: six Enable pulses, each held 1 ms, carrying the
three bytes as instructions.  Neither the resulting handle nor the emitted events
depend on the delay `d` or display state `c` the handle had before. -/
theorem reset_three_instructions (w : World) (bus : Bus) (d c : Nat) :
    (lcd_reset w).lcd = { w.lcd with delay := 1, displayCtrl := 0x08 }
    ∧ (lcd_reset w).trace = w.trace ++ emitted lcd_reset w.lcd
    ∧ emitted lcd_reset w.lcd =
        [0x33, 0x32, 0x28].flatMap
          (fun b => emitted (lcd_writeCommand b) { w.lcd with delay := 1, displayCtrl := 0x08 })
    ∧ pulsesFrom bus (emitted lcd_reset w.lcd) =
        [⟨0, 0, 0x3, 1⟩, ⟨0, 0, 0x3, 1⟩, ⟨0, 0, 0x3, 1⟩, ⟨0, 0, 0x2, 1⟩,
         ⟨0, 0, 0x2, 1⟩, ⟨0, 0, 0x8, 1⟩]
    ∧ transfers (pulsesFrom bus (emitted lcd_reset w.lcd)) = [⟨0, 0x33⟩, ⟨0, 0x32⟩, ⟨0, 0x28⟩]
    ∧ (lcd_reset ⟨{ w.lcd with delay := d, displayCtrl := c }, w.trace⟩) = lcd_reset w := by
  have hb : ∀ t ∈ [instr 0x33, instr 0x32, instr 0x28], t.rs ≤ 1 ∧ t.byte < 256 := by decide
  have he : emitted lcd_reset w.lcd =
      [instr 0x33, instr 0x32, instr 0x28].flatMap (transferEvents { w.lcd with delay := 1 }) := by
    simp [emitted, lcd_reset_eq]
  refine ⟨?_, ?_, ?_, ?_, ?_, ?_⟩
  · simp [lcd_reset_eq]
  · simp [emitted, lcd_reset_eq]
  · simp [emitted, lcd_reset_eq, lcd_writeCommand_eq, transferEvents, instr, commandEvents]
  · rw [he, pulsesFrom_transfers _ _ hb]; rfl
  · rw [he, transfers_pulsesFrom _ _ hb]; rfl
  · simp [lcd_reset_eq, transferEvents, instr, commandEvents]

/-- C3: from every handle state, `lcd_init` leaves delay 1 and cached display
state 0x0E, and appends exactly seven command writes, of the bytes 0x33, 0x32,
0x28, 0x0C, 0x0E, 0x01, 0x06 in that order; read from any bus state the trace
carries these seven bytes, all with Register-Select low (no data write). -/
theorem init_seven_instructions (w : World) (bus : Bus) :
    (lcd_init w).lcd = { w.lcd with delay := 1, displayCtrl := 0x0E }
    ∧ (lcd_init w).trace = w.trace ++ emitted lcd_init w.lcd
    ∧ emitted lcd_init w.lcd =
        [0x33, 0x32, 0x28, 0x0C, 0x0E, 0x01, 0x06].flatMap
          (fun b => emitted (lcd_writeCommand b) { w.lcd with delay := 1 })
    ∧ transfers (pulsesFrom bus (emitted lcd_init w.lcd)) =
        [⟨0, 0x33⟩, ⟨0, 0x32⟩, ⟨0, 0x28⟩, ⟨0, 0x0C⟩, ⟨0, 0x0E⟩, ⟨0, 0x01⟩, ⟨0, 0x06⟩] := by
  have hb : ∀ t ∈ [instr 0x33, instr 0x32, instr 0x28, instr 0x0C, instr 0x0E, instr 0x01,
      instr 0x06], t.rs ≤ 1 ∧ t.byte < 256 := by decide
  have he : emitted lcd_init w.lcd =
      [instr 0x33, instr 0x32, instr 0x28, instr 0x0C, instr 0x0E, instr 0x01,
        instr 0x06].flatMap (transferEvents { w.lcd with delay := 1 }) := by
    simp [emitted, lcd_init_eq]
  refine ⟨?_, ?_, ?_, ?_⟩
  · simp [lcd_init_eq]
  · simp [emitted, lcd_init_eq]
  · simp [emitted, lcd_init_eq, lcd_writeCommand_eq, transferEvents, instr]
  · rw [he, transfers_pulsesFrom _ _ hb]; rfl

/-! ## Display control: one cached state, three bits -/

set_option maxRecDepth 1000000 in
theorem displayCtrl_bits : ∀ c < 256, ∀ v < 2, ∀ i < 8,
    (u8 ((c &&& compl32 0x4) ||| (v <<< 2))).testBit i
      = if i = 2 then decide (v = 1) else c.testBit i := by
  decide

set_option maxRecDepth 1000000 in
theorem showCursor_bits : ∀ c < 256, ∀ v < 2, ∀ i < 8,
    (u8 ((c &&& compl32 0x2) ||| (v <<< 1))).testBit i
      = if i = 1 then decide (v = 1) else c.testBit i := by
  decide

set_option maxRecDepth 1000000 in
theorem cursorBlink_bits : ∀ c < 256, ∀ v < 2, ∀ i < 8,
    (u8 ((c &&& compl32 0x1) ||| v)).testBit i
      = if i = 0 then decide (v = 1) else c.testBit i := by
  decide

theorem u8_lt (n : Nat) : u8 n < 256 := Nat.mod_lt _ (by decide)

theorem testBit_high (x i : Nat) (hx : x < 256) (hi : 8 ≤ i) : x.testBit i = false :=
  Nat.testBit_lt_two_pow (lt_of_lt_of_le hx (Nat.pow_le_pow_right (show 0 < 2 by decide) hi))

theorem Toggle.run_eq (t : Toggle) (w : World) :
    t.run w = ⟨{ w.lcd with displayCtrl := (t.run w).lcd.displayCtrl },
      w.trace ++ transferEvents w.lcd (instr (t.run w).lcd.displayCtrl)⟩ := by
  cases t <;>
    simp [Toggle.run, lcd_displayCtrl_eq, lcd_showCursor_eq, lcd_cursorBlink_eq]

theorem Toggle.run_lcd (t : Toggle) (w : World) :
    (t.run ⟨w.lcd, []⟩).lcd = (t.run w).lcd := by
  cases t <;>
    simp [Toggle.run, lcd_displayCtrl_eq, lcd_showCursor_eq, lcd_cursorBlink_eq]

theorem Toggle.run_lt (t : Toggle) (w : World) : (t.run w).lcd.displayCtrl < 256 := by
  cases t <;>
    simp [Toggle.run, lcd_displayCtrl_eq, lcd_showCursor_eq, lcd_cursorBlink_eq, u8_lt]

/-- One call with an argument in {0, 1}: every bit of the new cached state. -/
theorem Toggle.run_testBit (t : Toggle) (w : World) (hc : w.lcd.displayCtrl < 256)
    (ht : t.arg ≤ 1) (i : Nat) :
    (t.run w).lcd.displayCtrl.testBit i
      = if i = t.bit then decide (t.arg = 1) else w.lcd.displayCtrl.testBit i := by
  by_cases hi : i < 8
  · cases t with
    | displayCtrl v =>
      simpa [Toggle.run, lcd_displayCtrl_eq, Toggle.bit, Toggle.arg] using
        displayCtrl_bits _ hc v (Nat.lt_succ_of_le ht) i hi
    | showCursor v =>
      simpa [Toggle.run, lcd_showCursor_eq, Toggle.bit, Toggle.arg] using
        showCursor_bits _ hc v (Nat.lt_succ_of_le ht) i hi
    | cursorBlink v =>
      simpa [Toggle.run, lcd_cursorBlink_eq, Toggle.bit, Toggle.arg] using
        cursorBlink_bits _ hc v (Nat.lt_succ_of_le ht) i hi
  · have h8 : 8 ≤ i := Nat.le_of_not_lt hi
    have hb : i ≠ t.bit := by cases t <;> simp [Toggle.bit] <;> omega
    rw [if_neg hb, testBit_high _ i (t.run_lt w) h8, testBit_high _ i hc h8]

theorem runToggles_lt (ops : List Toggle) (w : World) (hc : w.lcd.displayCtrl < 256) :
    (runToggles ops w).lcd.displayCtrl < 256 := by
  induction ops generalizing w with
  | nil => exact hc
  | cons t ts ih => exact ih _ (t.run_lt w)

/-- A bit whose operation is not called keeps its value over the sequence. -/
theorem runToggles_untouched (k : Nat) (ops : List Toggle) (w : World)
    (hc : w.lcd.displayCtrl < 256) (hops : ∀ t ∈ ops, t.arg ≤ 1)
    (hk : lastArg k ops = none) :
    (runToggles ops w).lcd.displayCtrl.testBit k = w.lcd.displayCtrl.testBit k := by
  induction ops generalizing w with
  | nil => rfl
  | cons t ts ih =>
    have hts : lastArg k ts = none := by
      cases h : lastArg k ts with
      | none => rfl
      | some a => simp [lastArg, h] at hk
    have htb : k ≠ t.bit := by
      intro h
      subst h
      simp [lastArg, hts] at hk
    have ht := hops t (List.mem_cons_self _ _)
    show (runToggles ts (t.run w)).lcd.displayCtrl.testBit k = _
    rw [ih (t.run w) (t.run_lt w) (fun u hu => hops u (List.mem_cons_of_mem _ hu)) hts,
      t.run_testBit w hc ht k, if_neg htb]

/-- Over a sequence of calls, a bit holds the argument of the last call of its
own operation. -/
theorem runToggles_last (k a : Nat) (ops : List Toggle) (w : World)
    (hc : w.lcd.displayCtrl < 256) (hops : ∀ t ∈ ops, t.arg ≤ 1)
    (hk : lastArg k ops = some a) :
    (runToggles ops w).lcd.displayCtrl.testBit k = decide (a = 1) := by
  induction ops generalizing w with
  | nil => simp [lastArg] at hk
  | cons t ts ih =>
    have ht := hops t (List.mem_cons_self _ _)
    have hts' := fun u hu => hops u (List.mem_cons_of_mem _ hu)
    show (runToggles ts (t.run w)).lcd.displayCtrl.testBit k = _
    cases h : lastArg k ts with
    | some b =>
      have hab : b = a := by simpa [lastArg, h] using hk
      exact ih (t.run w) (t.run_lt w) hts' (hab ▸ h)
    | none =>
      have htb : t.bit = k ∧ t.arg = a := by
        by_cases hb : t.bit = k
        · simpa [lastArg, h, hb] using hk
        · simp [lastArg, h, hb] at hk
      rw [runToggles_untouched k ts (t.run w) (t.run_lt w) hts' h,
        t.run_testBit w hc ht k, if_pos htb.1.symm, htb.2]

/-- C5: for every cached display state (a byte) and every argument in {0, 1}, a call
`t` of `lcd_displayCtrl`, `lcd_showCursor` or `lcd_cursorBlink` sets its own bit of
the cached state (2, 1, 0 respectively) to the argument, leaves every other bit
and every other field of the handle unchanged, and performs exactly one command
write, of the new cached state.  Hence over any sequence `ops` of such calls, the
bit `k` equals the argument `a` of the last call of its own operation. -/
theorem toggle_sets_own_bit_only (w : World) (bus : Bus) (t : Toggle) (ops : List Toggle)
    (hc : w.lcd.displayCtrl < 256) (ht : t.arg ≤ 1) (hops : ∀ u ∈ ops, u.arg ≤ 1) :
    (t.run w).lcd.displayCtrl.testBit t.bit = decide (t.arg = 1)
    ∧ (∀ i, i ≠ t.bit → (t.run w).lcd.displayCtrl.testBit i = w.lcd.displayCtrl.testBit i)
    ∧ (t.run w).lcd = { w.lcd with displayCtrl := (t.run w).lcd.displayCtrl }
    ∧ (t.run w).trace
        = w.trace ++ emitted (lcd_writeCommand (t.run w).lcd.displayCtrl) w.lcd
    ∧ transfers (pulsesFrom bus (emitted t.run w.lcd)) = [⟨0, (t.run w).lcd.displayCtrl⟩]
    ∧ (∀ k a, lastArg k ops = some a →
        (runToggles ops w).lcd.displayCtrl.testBit k = decide (a = 1)) := by
  refine ⟨?_, ?_, ?_, ?_, ?_, ?_⟩
  · rw [t.run_testBit w hc ht, if_pos rfl]
  · intro i hi
    rw [t.run_testBit w hc ht, if_neg hi]
  · rw [t.run_eq w]
  · rw [emitted_writeCommand, t.run_eq w]; rfl
  · have he : emitted t.run w.lcd
        = [instr (t.run w).lcd.displayCtrl].flatMap (transferEvents w.lcd) := by
      rw [emitted, t.run_eq ⟨w.lcd, []⟩]
      simp [t.run_lcd w]
    rw [he, transfers_pulsesFrom]
    · rfl
    · intro u hu
      simp only [List.mem_singleton] at hu
      subst hu
      exact ⟨Nat.zero_le _, t.run_lt w⟩
  · intro k a hk
    exact runToggles_last k a ops w hc hops hk

/-- C5 on the sample handle: after display off, cursor on, blink on, display on,
all three bits are set; one call of `lcd_cursorBlink 1` on state 0x0C writes 0x0D. -/
theorem toggle_sets_own_bit_only_witness :
    sampleLcd.displayCtrl < 256 ∧ (Toggle.cursorBlink 1).arg ≤ 1
    ∧ (∀ u ∈ [Toggle.displayCtrl 0, Toggle.showCursor 1, Toggle.cursorBlink 1,
          Toggle.displayCtrl 1], u.arg ≤ 1)
    ∧ transfers (pulsesFrom Bus.idle (emitted (Toggle.cursorBlink 1).run sampleLcd))
        = [⟨0, 0x0D⟩]
    ∧ (runToggles [Toggle.displayCtrl 0, Toggle.showCursor 1, Toggle.cursorBlink 1,
          Toggle.displayCtrl 1] ⟨sampleLcd, []⟩).lcd.displayCtrl.testBit 2 = true :=
  have h := toggle_sets_own_bit_only ⟨sampleLcd, []⟩ Bus.idle (Toggle.cursorBlink 1)
    [Toggle.displayCtrl 0, Toggle.showCursor 1, Toggle.cursorBlink 1, Toggle.displayCtrl 1]
    (by decide) (by decide) (by decide)
  ⟨by decide, by decide, by decide, h.2.2.2.2.1, h.2.2.2.2.2 2 1 (by decide)⟩

/-! ## Pulse delay -/

theorem lcd_setDelay_eq (d : Nat) (w : World) :
    lcd_setDelay d w = ⟨{ w.lcd with delay := max d 1 }, w.trace⟩ := by
  have h : (if d < 1 then 1 else d) = max d 1 := by
    split <;> omega
  unfold lcd_setDelay
  simp only [h]

/-- C6: for every input `d` (in particular every 16-bit one) and every handle,
`lcd_setDelay d` leaves the handle with delay `max d 1` and every other field as
it was, and emits no event. -/
theorem setDelay_clamps_to_one (w : World) (d : Nat) :
    (lcd_setDelay d w).lcd.delay = max d 1
    ∧ (lcd_setDelay d w).trace = w.trace
    ∧ lcd_setDelay d w = ⟨{ w.lcd with delay := max d 1 }, w.trace⟩ := by
  simp [lcd_setDelay_eq]

/-! ## Custom patterns -/

/-- The ten transfers of `lcd_setPattern`, for the pattern id after the range
check. -/
theorem lcd_setPattern_eq (pattern_id : Nat) (pattern : Nat → Nat) (w : World) :
    lcd_setPattern pattern_id pattern w =
      ⟨{ w.lcd with delay := max (u8 w.lcd.delay) 1 },
        w.trace ++
          (instr (u8 (LCD_CMD_SET_CGRAM_ADR |||
              ((if pattern_id > 7 then 0 else pattern_id) <<< 3)))
            :: (List.range 8).map (fun i => datum (pattern i)) ++ [instr 0x01]).flatMap
            (transferEvents { w.lcd with delay := 1 })⟩ := by
  have hr : List.range 8 = [0, 1, 2, 3, 4, 5, 6, 7] := by decide
  simp [lcd_setPattern, lcd_setPattern_loop, lcd_setDelay_eq, lcd_clearDisplay, hr,
    lcd_writeCommand_eq, lcd_writeData_eq, LCD_CMD_CLEAR_DISPLAY, transferEvents, instr, datum,
    commandEvents, dataEvents]

theorem cgram_address : ∀ p < 8, u8 (LCD_CMD_SET_CGRAM_ADR ||| (p <<< 3)) = 0x40 ||| (p <<< 3)
    ∧ 0x40 ||| (p <<< 3) = 64 + 8 * p ∧ 0x40 ||| (p <<< 3) < 256 := by
  decide

theorem patternTransfers_wf (p : Nat) (pattern : Nat → Nat) (hp : p ≤ 7)
    (hpat : ∀ i < 8, pattern i < 256) :
    ∀ t ∈ patternTransfers p pattern, t.rs ≤ 1 ∧ t.byte < 256 := by
  intro t ht
  simp only [patternTransfers, List.mem_cons, List.mem_append, List.mem_map, List.mem_range,
    List.mem_singleton, List.not_mem_nil, or_false] at ht
  rcases ht with (rfl | ⟨i, hi, rfl⟩) | rfl
  · exact ⟨Nat.zero_le _, (cgram_address p (Nat.lt_succ_of_le hp)).2.2⟩
  · exact ⟨Nat.le_refl _, hpat i hi⟩
  · exact ⟨Nat.zero_le _, by decide⟩

theorem emitted_setPattern (p : Nat) (pattern : Nat → Nat) (lcd : LCD_t) (hp : p ≤ 7) :
    emitted (lcd_setPattern p pattern) lcd
      = (patternTransfers p pattern).flatMap (transferEvents { lcd with delay := 1 }) := by
  have h7 : ¬ p > 7 := Nat.not_lt.mpr hp
  rw [emitted, lcd_setPattern_eq, if_neg h7, (cgram_address p (Nat.lt_succ_of_le hp)).1]
  simp [patternTransfers]

theorem setPattern_transfers_eq (p : Nat) (pattern : Nat → Nat) (lcd : LCD_t) (bus : Bus)
    (hp : p ≤ 7) (hpat : ∀ i < 8, pattern i < 256) :
    transfers (pulsesFrom bus (emitted (lcd_setPattern p pattern) lcd))
      = patternTransfers p pattern := by
  rw [emitted_setPattern p pattern lcd hp]
  exact transfers_pulsesFrom _ _ (patternTransfers_wf p pattern hp hpat) bus

/-- C7 fails on the code: on a handle with delay 300, `lcd_setPattern` leaves the
delay at 44 (300 mod 256), not at 300; with delay 256 it leaves 1. -/
theorem setPattern_loses_delay_above_255 :
    (lcd_setPattern 0 samplePattern ⟨{ sampleLcd with delay := 300 }, []⟩).lcd.delay = 44
    ∧ (lcd_setPattern 0 samplePattern ⟨{ sampleLcd with delay := 256 }, []⟩).lcd.delay = 1 := by
  constructor <;> simp [lcd_setPattern_eq, u8]

/-- C8: for every handle, every pattern and every pattern id `p` from 8 up (so
every `uint8_t` value in 8..255), `lcd_setPattern p` gives the same handle and the same trace as
`lcd_setPattern 0`; its first sixteen events are the command write of 0x40 at
delay 1, and the first byte read from the trace is the instruction 0x40. -/
theorem setPattern_out_of_range_is_zero (w : World) (bus : Bus) (pattern : Nat → Nat)
    (p : Nat) (h8 : 8 ≤ p) :
    lcd_setPattern p pattern w = lcd_setPattern 0 pattern w
    ∧ (emitted (lcd_setPattern p pattern) w.lcd).take 16
        = emitted (lcd_writeCommand 0x40) { w.lcd with delay := 1 }
    ∧ (transfers (pulsesFrom bus (emitted (lcd_setPattern p pattern) w.lcd))).head?
        = some ⟨0, 0x40⟩ := by
  have hp : (if p > 7 then 0 else p) = 0 := if_pos h8
  have h0 : (if 0 > 7 then 0 else 0) = 0 := rfl
  have he : lcd_setPattern p pattern w = lcd_setPattern 0 pattern w := by
    rw [lcd_setPattern_eq, lcd_setPattern_eq, hp, h0]
  have hw : lcd_setPattern p pattern ⟨w.lcd, []⟩ = lcd_setPattern 0 pattern ⟨w.lcd, []⟩ := by
    rw [lcd_setPattern_eq, lcd_setPattern_eq, hp, h0]
  have hem : emitted (lcd_setPattern p pattern) w.lcd
      = commandEvents { w.lcd with delay := 1 } 0x40
        ++ ((List.range 8).map (fun i => datum (pattern i)) ++ [instr 0x01]).flatMap
            (transferEvents { w.lcd with delay := 1 }) := by
    rw [emitted, hw, ← emitted, emitted_setPattern 0 pattern w.lcd (by decide)]
    rfl
  refine ⟨he, ?_, ?_⟩
  · rw [hem, emitted_writeCommand]
    exact List.take_left' (by simp [commandEvents])
  · rw [hem, pulsesFrom_append, pulsesFrom_commandEvents _ _ 0x40 (by decide),
      List.cons_append, List.cons_append, transfers, List.head?_cons]
    exact congrArg some (congrArg (Transfer.mk 0) (nibbles_join 0x40 (by decide)))

/-- C8 at pattern id 9 on the sample handle. -/
theorem setPattern_out_of_range_is_zero_witness :
    8 ≤ 9
    ∧ lcd_setPattern 9 samplePattern ⟨sampleLcd, []⟩
        = lcd_setPattern 0 samplePattern ⟨sampleLcd, []⟩
    ∧ (transfers (pulsesFrom Bus.idle
          (emitted (lcd_setPattern 9 samplePattern) sampleLcd))).head? = some ⟨0, 0x40⟩ :=
  have h := setPattern_out_of_range_is_zero ⟨sampleLcd, []⟩ Bus.idle samplePattern 9
    (by decide)
  ⟨by decide, h.1, h.2.2⟩

/-- C9: for every handle, every pattern id `p` in 0..7 and every pattern of eight
bytes, `lcd_setPattern` performs, at delay 1, the command write of
`0x40 | (p << 3)` (that is `64 + 8 * p`), the eight data writes of `pattern 0` to
`pattern 7` in index order, and the command write of 0x01, and nothing else; the
trace carries exactly these ten bytes, in twenty Enable pulses each held 1 ms,
whatever delay the handle had. -/
theorem setPattern_ten_transfers (w : World) (bus : Bus) (p : Nat) (pattern : Nat → Nat)
    (hp : p ≤ 7) (hpat : ∀ i < 8, pattern i < 256) :
    (lcd_setPattern p pattern w).trace = w.trace ++ emitted (lcd_setPattern p pattern) w.lcd
    ∧ emitted (lcd_setPattern p pattern) w.lcd
        = emitted (lcd_writeCommand (0x40 ||| (p <<< 3))) { w.lcd with delay := 1 }
          ++ (List.range 8).flatMap
              (fun i => emitted (lcd_writeData (pattern i)) { w.lcd with delay := 1 })
          ++ emitted (lcd_writeCommand 0x01) { w.lcd with delay := 1 }
    ∧ 0x40 ||| (p <<< 3) = 64 + 8 * p
    ∧ transfers (pulsesFrom bus (emitted (lcd_setPattern p pattern) w.lcd))
        = ⟨0, 0x40 ||| (p <<< 3)⟩ :: (List.range 8).map (fun i => ⟨1, pattern i⟩) ++ [⟨0, 0x01⟩]
    ∧ (transfers (pulsesFrom bus (emitted (lcd_setPattern p pattern) w.lcd))).length = 10
    ∧ (pulsesFrom bus (emitted (lcd_setPattern p pattern) w.lcd)).length = 20
    ∧ (∀ q ∈ pulsesFrom bus (emitted (lcd_setPattern p pattern) w.lcd), q.held = 1) := by
  have hwf := patternTransfers_wf p pattern hp hpat
  have he := emitted_setPattern p pattern w.lcd hp
  have ht := transfers_pulsesFrom { w.lcd with delay := 1 } _ hwf bus
  refine ⟨?_, ?_, (cgram_address p (Nat.lt_succ_of_le hp)).2.1, ?_, ?_, ?_, ?_⟩
  · simp [emitted, lcd_setPattern_eq]
  · rw [he]
    simp [patternTransfers, emitted_writeCommand, emitted_writeData, transferEvents, instr,
      datum, List.flatMap_append, List.flatMap_map]
  · rw [he, ht]; rfl
  · rw [he, ht]; simp [patternTransfers]
  · rw [he, length_pulsesFrom _ _ hwf]
    simp [patternTransfers]
  · rw [he]
    exact held_pulsesFrom { w.lcd with delay := 1 } _ hwf bus

/-- C9 at pattern id 3 with the sample glyph, on the sample handle (delay 5). -/
theorem setPattern_ten_transfers_witness :
    3 ≤ 7 ∧ (∀ i < 8, samplePattern i < 256)
    ∧ transfers (pulsesFrom Bus.idle (emitted (lcd_setPattern 3 samplePattern) sampleLcd))
        = [⟨0, 0x58⟩, ⟨1, 0x04⟩, ⟨1, 0x0E⟩, ⟨1, 0x04⟩, ⟨1, 0x0E⟩, ⟨1, 0x04⟩, ⟨1, 0x0E⟩,
           ⟨1, 0x04⟩, ⟨1, 0x0E⟩, ⟨0, 0x01⟩] :=
  ⟨by decide, by decide,
   (setPattern_ten_transfers ⟨sampleLcd, []⟩ Bus.idle 3 samplePattern (by decide)
      (by decide)).2.2.2.1⟩

/-! ## Cursor addressing -/

set_option maxRecDepth 1000000 in
theorem ddram_address : ∀ row < 2, ∀ col < 40,
    u8 (LCD_CMD_SET_DDRAM_ADR ||| (row <<< 6) ||| col) = 0x80 + 64 * row + col
    ∧ 0x80 ||| (row <<< 6) ||| col = 0x80 + 64 * row + col
    ∧ (0x80 + 64 * row + col).testBit 7 = true
    ∧ (0x80 + 64 * row + col) % 128 = 64 * row + col
    ∧ 0x80 + 64 * row + col < 256 := by
  decide

theorem lcd_setCursor_eq (row col : Nat) (hrow : row ≤ 1) (hcol : col ≤ 39) :
    lcd_setCursor row col = lcd_writeCommand (0x80 + 64 * row + col) := by
  funext v
  rw [lcd_setCursor, (ddram_address row (Nat.lt_succ_of_le hrow) col (Nat.lt_succ_of_le hcol)).1]

theorem transfers_setCursor (lcd : LCD_t) (bus : Bus) (row col : Nat)
    (hrow : row ≤ 1) (hcol : col ≤ 39) :
    transfers (pulsesFrom bus (emitted (lcd_setCursor row col) lcd))
      = [⟨0, 0x80 + 64 * row + col⟩] := by
  have h := ddram_address row (Nat.lt_succ_of_le hrow) col (Nat.lt_succ_of_le hcol)
  rw [lcd_setCursor_eq row col hrow hcol, emitted_writeCommand,
    pulsesFrom_commandEvents _ _ _ h.2.2.2.2]
  exact congrArg (fun b => [Transfer.mk 0 b]) (nibbles_join _ h.2.2.2.2)

/-- C10: for every handle, every `row` in {0, 1} and every `col` in 0..39,
`lcd_setCursor row col` is one command write of the byte
`0x80 | (row << 6) | col = 0x80 + 64 * row + col`, whose bit 7 is set and whose low
seven bits are `64 * row + col`; the trace carries exactly that one instruction
byte and the handle is unchanged.  For row 1, column 5 the byte is 0xC5. -/
theorem setCursor_one_instruction (w : World) (bus : Bus) (row col : Nat)
    (hrow : row ≤ 1) (hcol : col ≤ 39) :
    lcd_setCursor row col w = lcd_writeCommand (0x80 + 64 * row + col) w
    ∧ 0x80 ||| (row <<< 6) ||| col = 0x80 + 64 * row + col
    ∧ (0x80 + 64 * row + col).testBit 7 = true
    ∧ (0x80 + 64 * row + col) % 128 = 64 * row + col
    ∧ transfers (pulsesFrom bus (emitted (lcd_setCursor row col) w.lcd))
        = [⟨0, 0x80 + 64 * row + col⟩]
    ∧ (lcd_setCursor row col w).lcd = w.lcd
    ∧ transfers (pulsesFrom bus (emitted (lcd_setCursor 1 5) w.lcd)) = [⟨0, 0xC5⟩] := by
  have h := ddram_address row (Nat.lt_succ_of_le hrow) col (Nat.lt_succ_of_le hcol)
  have he := lcd_setCursor_eq row col hrow hcol
  refine ⟨by rw [he], h.2.1, h.2.2.1, h.2.2.2.1, transfers_setCursor w.lcd bus row col hrow hcol,
    ?_, transfers_setCursor w.lcd bus 1 5 (by decide) (by decide)⟩
  rw [he, lcd_writeCommand_eq]

/-- C10 at row 1, column 5: the one instruction byte is 0xC5. -/
theorem setCursor_one_instruction_witness :
    1 ≤ 1 ∧ 5 ≤ 39
    ∧ transfers (pulsesFrom Bus.idle (emitted (lcd_setCursor 1 5) sampleLcd)) = [⟨0, 0xC5⟩]
    ∧ (lcd_setCursor 1 5 ⟨sampleLcd, []⟩).lcd = sampleLcd :=
  have h := setCursor_one_instruction ⟨sampleLcd, []⟩ Bus.idle 1 5 (by decide) (by decide)
  ⟨by decide, by decide, h.2.2.2.2.1, h.2.2.2.2.2.1⟩

/-! ## Text output -/

theorem lcd_printMsg_loop_eq (msg : Nat → Nat) (lcd : LCD_t) (t : List Nat) :
    ∀ (i fuel : Nat) (tr : List Event),
      (∀ j < t.length, msg (i + j) = t.getD j 0) → (∀ c ∈ t, c ≠ 0) →
      msg (i + t.length) = 0 → t.length < fuel →
      lcd_printMsg_loop msg fuel i ⟨lcd, tr⟩
        = some ⟨lcd, tr ++ t.flatMap (dataEvents lcd)⟩ := by
  induction t with
  | nil =>
    intro i fuel tr _ _ hend hfuel
    obtain ⟨f, rfl⟩ : ∃ f, fuel = f + 1 := ⟨fuel - 1, by simp at hfuel; omega⟩
    have h0 : msg i = 0 := by simpa using hend
    simp [lcd_printMsg_loop, h0]
  | cons c cs ih =>
    intro i fuel tr hmem hnz hend hfuel
    obtain ⟨f, rfl⟩ : ∃ f, fuel = f + 1 := ⟨fuel - 1, by simp at hfuel; omega⟩
    have hc : msg i = c := by simpa using hmem 0 (by simp)
    have hcz : c ≠ 0 := hnz c (List.mem_cons_self _ _)
    have hmem' : ∀ j < cs.length, msg (i + 1 + j) = cs.getD j 0 := by
      intro j hj
      have := hmem (j + 1) (by simpa using hj)
      simpa [Nat.add_assoc, Nat.add_comm 1 j] using this
    have hend' : msg (i + 1 + cs.length) = 0 := by
      have : i + 1 + cs.length = i + (c :: cs).length := by simp; omega
      rw [this]; exact hend
    have hfuel' : cs.length < f := by simp at hfuel; omega
    rw [lcd_printMsg_loop, hc, if_pos hcz, lcd_writeData_eq,
      ih (i + 1) f _ hmem' (fun d hd => hnz d (List.mem_cons_of_mem _ hd)) hend' hfuel']
    simp

theorem pulsesFrom_data_list (lcd : LCD_t) (t : List Nat) (h : ∀ c ∈ t, c < 256) (bus : Bus) :
    pulsesFrom bus (t.flatMap (dataEvents lcd))
      = t.flatMap fun c => [⟨1, 0, c >>> 4, lcd.delay⟩, ⟨1, 0, c &&& 0xF, lcd.delay⟩] := by
  induction t generalizing bus with
  | nil => rfl
  | cons c cs ih =>
    rw [List.flatMap_cons, List.flatMap_cons, pulsesFrom_append,
      pulsesFrom_dataEvents bus lcd c (h c (List.mem_cons_self _ _)),
      ih (fun d hd => h d (List.mem_cons_of_mem _ hd))]

theorem transfers_data_list (lcd : LCD_t) (t : List Nat) (h : ∀ c ∈ t, c < 256) :
    transfers (t.flatMap fun c =>
        [(⟨1, 0, c >>> 4, lcd.delay⟩ : Pulse), ⟨1, 0, c &&& 0xF, lcd.delay⟩])
      = t.map fun c => ⟨1, c⟩ := by
  induction t with
  | nil => rfl
  | cons c cs ih =>
    have hj := nibbles_join c (h c (List.mem_cons_self _ _))
    rw [List.flatMap_cons, List.cons_append, List.cons_append, List.nil_append, transfers,
      ih (fun d hd => h d (List.mem_cons_of_mem _ hd)), List.map_cons]
    simp only [hj]

theorem length_data_pulses (lcd : LCD_t) (t : List Nat) :
    (t.flatMap fun c =>
        [(⟨1, 0, c >>> 4, lcd.delay⟩ : Pulse), ⟨1, 0, c &&& 0xF, lcd.delay⟩]).length
      = 2 * t.length := by
  induction t with
  | nil => rfl
  | cons c cs ih =>
    rw [List.flatMap_cons, List.length_append, ih, List.length_cons]
    simp only [List.length_cons, List.length_nil]
    omega

/-- C11: for every handle and every text `t` of non-zero bytes that memory holds
at `msg`, followed by a zero byte, `lcd_printMsg` returns as soon as the fuel
exceeds the length of `t`; it leaves the handle unchanged and appends the traces
of `lcd_writeData` of the bytes of `t`, in order, and nothing else (nothing at
all for the empty text).  The trace shows two Enable pulses per byte and carries
the bytes of `t` as data.  For the text "Hi" the bytes are 0x48 and 0x69, in the
nibbles 0x4, 0x8, 0x6, 0x9. -/
theorem printMsg_writes_each_byte (w : World) (bus : Bus) (msg : Nat → Nat) (t : List Nat)
    (fuel : Nat) (hmsg : ∀ j < t.length, msg j = t.getD j 0)
    (hbyte : ∀ c ∈ t, c ≠ 0 ∧ c < 256) (hend : msg t.length = 0) (hfuel : t.length < fuel) :
    lcd_printMsg msg fuel w
        = some ⟨w.lcd, w.trace ++ t.flatMap fun c => emitted (lcd_writeData c) w.lcd⟩
    ∧ (pulsesFrom bus (t.flatMap fun c => emitted (lcd_writeData c) w.lcd)).length
        = 2 * t.length
    ∧ transfers (pulsesFrom bus (t.flatMap fun c => emitted (lcd_writeData c) w.lcd))
        = t.map (fun c => ⟨1, c⟩)
    ∧ lcd_printMsg (cstring [0x48, 0x69]) 3 w
        = some ⟨w.lcd, w.trace ++ emitted (lcd_writeData 0x48) w.lcd
            ++ emitted (lcd_writeData 0x69) w.lcd⟩
    ∧ pulsesFrom bus (emitted (lcd_writeData 0x48) w.lcd ++ emitted (lcd_writeData 0x69) w.lcd)
        = [⟨1, 0, 0x4, w.lcd.delay⟩, ⟨1, 0, 0x8, w.lcd.delay⟩, ⟨1, 0, 0x6, w.lcd.delay⟩,
           ⟨1, 0, 0x9, w.lcd.delay⟩] := by
  have he : (fun c => emitted (lcd_writeData c) w.lcd) = dataEvents w.lcd := by
    funext c; exact emitted_writeData c w.lcd
  have hlt : ∀ c ∈ t, c < 256 := fun c hc => (hbyte c hc).2
  refine ⟨?_, ?_, ?_, ?_, ?_⟩
  · rw [he]
    exact lcd_printMsg_loop_eq msg w.lcd t 0 fuel w.trace (by simpa using hmsg)
      (fun c hc => (hbyte c hc).1) (by simpa using hend) hfuel
  · rw [he, pulsesFrom_data_list _ _ hlt, length_data_pulses]
  · rw [he, pulsesFrom_data_list _ _ hlt, transfers_data_list _ _ hlt]
  · have h := lcd_printMsg_loop_eq (cstring [0x48, 0x69]) w.lcd [0x48, 0x69] 0 3 w.trace
      (by decide) (by decide) (by decide) (by decide)
    rw [emitted_writeData, emitted_writeData, List.append_assoc]
    exact h
  · rw [emitted_writeData, emitted_writeData, pulsesFrom_append,
      pulsesFrom_dataEvents _ _ 0x48 (by decide), pulsesFrom_dataEvents _ _ 0x69 (by decide)]
    rfl

/-- C11 for the text "Hi" on the sample handle. -/
theorem printMsg_writes_each_byte_witness :
    (∀ j < [0x48, 0x69].length, cstring [0x48, 0x69] j = [0x48, 0x69].getD j 0)
    ∧ (∀ c ∈ [0x48, 0x69], c ≠ 0 ∧ c < 256)
    ∧ cstring [0x48, 0x69] [0x48, 0x69].length = 0
    ∧ [0x48, 0x69].length < 3
    ∧ transfers (pulsesFrom Bus.idle
          ([0x48, 0x69].flatMap fun c => emitted (lcd_writeData c) sampleLcd))
        = [⟨1, 0x48⟩, ⟨1, 0x69⟩] :=
  ⟨by decide, by decide, by decide, by decide,
   (printMsg_writes_each_byte ⟨sampleLcd, []⟩ Bus.idle (cstring [0x48, 0x69]) [0x48, 0x69] 3
      (by decide) (by decide) (by decide) (by decide)).2.2.1⟩

/-! ## Shifts -/

theorem transfers_writeCommand (lcd : LCD_t) (bus : Bus) (b : Nat) (hb : b < 256) :
    transfers (pulsesFrom bus (emitted (lcd_writeCommand b) lcd)) = [⟨0, b⟩] := by
  rw [emitted_writeCommand, pulsesFrom_commandEvents bus lcd b hb]
  exact congrArg (fun c => [Transfer.mk 0 c]) (nibbles_join b hb)

theorem shift_bytes : ∀ d < 2,
    u8 ((LCD_CMD_DISPLAY_SHIFT &&& compl32 0x8) ||| (d <<< 2)) = 0x10 ||| (d <<< 2)
    ∧ u8 (LCD_CMD_DISPLAY_SHIFT ||| 0x8 ||| (d <<< 2)) = 0x10 ||| 0x08 ||| (d <<< 2)
    ∧ 0x10 ||| (d <<< 2) < 256 ∧ 0x10 ||| 0x08 ||| (d <<< 2) < 256
    ∧ (0x10 ||| (d <<< 2)).testBit 3 = false
    ∧ (0x10 ||| 0x08 ||| (d <<< 2)).testBit 3 = true
    ∧ (0x10 ||| (d <<< 2)) ^^^ (0x10 ||| 0x08 ||| (d <<< 2)) = 0x08
    ∧ (0x10 ||| (d <<< 2)).testBit 2 = decide (d = 1)
    ∧ (0x10 ||| 0x08 ||| (d <<< 2)).testBit 2 = decide (d = 1) := by
  decide

/-- C12: for every direction in {0, 1}, `lcd_cursorShift` is one command write of
`0x10 | (direction << 2)`, whose bit 3 is clear, and `lcd_displayShift` is one
command write of `0x10 | 0x08 | (direction << 2)`, whose bit 3 is set; the two
bytes differ in bit 3 only (their exclusive or is 0x08), and bit 2 of both is the
direction. -/
theorem shift_one_instruction (w : World) (bus : Bus) (direction : Nat)
    (hd : direction ≤ 1) :
    lcd_cursorShift direction w = lcd_writeCommand (0x10 ||| (direction <<< 2)) w
    ∧ lcd_displayShift direction w
        = lcd_writeCommand (0x10 ||| 0x08 ||| (direction <<< 2)) w
    ∧ transfers (pulsesFrom bus (emitted (lcd_cursorShift direction) w.lcd))
        = [⟨0, 0x10 ||| (direction <<< 2)⟩]
    ∧ transfers (pulsesFrom bus (emitted (lcd_displayShift direction) w.lcd))
        = [⟨0, 0x10 ||| 0x08 ||| (direction <<< 2)⟩]
    ∧ (0x10 ||| (direction <<< 2)).testBit 3 = false
    ∧ (0x10 ||| 0x08 ||| (direction <<< 2)).testBit 3 = true
    ∧ (0x10 ||| (direction <<< 2)) ^^^ (0x10 ||| 0x08 ||| (direction <<< 2)) = 0x08
    ∧ (0x10 ||| (direction <<< 2)).testBit 2 = decide (direction = 1)
    ∧ (0x10 ||| 0x08 ||| (direction <<< 2)).testBit 2 = decide (direction = 1) := by
  have h := shift_bytes direction (Nat.lt_succ_of_le hd)
  have hc : lcd_cursorShift direction = lcd_writeCommand (0x10 ||| (direction <<< 2)) := by
    funext v; rw [lcd_cursorShift, h.1]
  have hs : lcd_displayShift direction
      = lcd_writeCommand (0x10 ||| 0x08 ||| (direction <<< 2)) := by
    funext v; rw [lcd_displayShift, h.2.1]
  refine ⟨by rw [hc], by rw [hs], ?_, ?_, h.2.2.2.2⟩
  · rw [hc]; exact transfers_writeCommand _ _ _ h.2.2.1
  · rw [hs]; exact transfers_writeCommand _ _ _ h.2.2.2.1

/-- C12 at direction 1 (right): the bytes are 0x14 and 0x1C. -/
theorem shift_one_instruction_witness :
    1 ≤ 1
    ∧ transfers (pulsesFrom Bus.idle (emitted (lcd_cursorShift 1) sampleLcd)) = [⟨0, 0x14⟩]
    ∧ transfers (pulsesFrom Bus.idle (emitted (lcd_displayShift 1) sampleLcd)) = [⟨0, 0x1C⟩] :=
  have h := shift_one_instruction ⟨sampleLcd, []⟩ Bus.idle 1 (by decide)
  ⟨by decide, h.2.2.1, h.2.2.2.1⟩

/-! ## Out-of-range arguments -/

theorem lcd_setPattern_above_seven (p : Nat) (pattern : Nat → Nat) (w : World) (h8 : 8 ≤ p) :
    lcd_setPattern p pattern w = lcd_setPattern 0 pattern w := by
  have hp : (if p > 7 then 0 else p) = 0 := if_pos h8
  have h0 : (if 0 > 7 then 0 else 0) = 0 := rfl
  rw [lcd_setPattern_eq, lcd_setPattern_eq, hp, h0]

theorem head_transfers_setPattern_zero (pattern : Nat → Nat) (lcd : LCD_t) (bus : Bus) :
    (transfers (pulsesFrom bus (emitted (lcd_setPattern 0 pattern) lcd))).head?
      = some ⟨0, 0x40⟩ := by
  have hem : emitted (lcd_setPattern 0 pattern) lcd
      = commandEvents { lcd with delay := 1 } 0x40
        ++ ((List.range 8).map (fun i => datum (pattern i)) ++ [instr 0x01]).flatMap
            (transferEvents { lcd with delay := 1 }) := by
    rw [emitted_setPattern 0 pattern lcd (by decide)]
    rfl
  rw [hem, pulsesFrom_append, pulsesFrom_commandEvents _ _ 0x40 (by decide),
    List.cons_append, List.cons_append, transfers, List.head?_cons]
  exact congrArg some (congrArg (Transfer.mk 0) (nibbles_join 0x40 (by decide)))

/-- C16 fails on the code: with pattern id 9 the first byte `lcd_setPattern`
sends is the instruction 0x40 (glyph 0), not 0x78 (glyph 7), and the call gives
what pattern id 0 gives, which differs from what pattern id 7 gives. -/
theorem setPattern_nine_is_not_seven :
    (transfers (pulsesFrom Bus.idle (emitted (lcd_setPattern 9 samplePattern) sampleLcd))).head?
        = some ⟨0, 0x40⟩
    ∧ (transfers (pulsesFrom Bus.idle
          (emitted (lcd_setPattern 9 samplePattern) sampleLcd))).head? ≠ some ⟨0, 0x78⟩
    ∧ (transfers (pulsesFrom Bus.idle
          (emitted (lcd_setPattern 7 samplePattern) sampleLcd))).head? = some ⟨0, 0x78⟩
    ∧ lcd_setPattern 9 samplePattern ⟨sampleLcd, []⟩
        ≠ lcd_setPattern 7 samplePattern ⟨sampleLcd, []⟩ := by
  have e9 : emitted (lcd_setPattern 9 samplePattern) sampleLcd
      = emitted (lcd_setPattern 0 samplePattern) sampleLcd := by
    rw [emitted, emitted, lcd_setPattern_above_seven 9 _ _ (by decide)]
  have h9 := head_transfers_setPattern_zero samplePattern sampleLcd Bus.idle
  have h7 : (transfers (pulsesFrom Bus.idle
      (emitted (lcd_setPattern 7 samplePattern) sampleLcd))).head? = some ⟨0, 0x78⟩ := by
    have ht := (setPattern_transfers_eq 7 samplePattern sampleLcd Bus.idle (by decide)
      (by decide))
    rw [ht]; rfl
  refine ⟨e9 ▸ h9, ?_, h7, ?_⟩
  · rw [e9, h9]; decide
  · intro h
    have h' : emitted (lcd_setPattern 9 samplePattern) sampleLcd
        = emitted (lcd_setPattern 7 samplePattern) sampleLcd := by
      rw [emitted, emitted, h]
    rw [← e9, h', h7] at h9
    exact absurd h9 (by decide)

/-- C16 as amended: `lcd_setDelay` with a delay below 1 stores 1, the nearest valid
delay; `lcd_setPattern` with a pattern id above 7 does what it does for pattern
id 0, its first byte being the instruction 0x40. -/
theorem out_of_range_inputs_replaced (w : World) (bus : Bus) (d p : Nat)
    (pattern : Nat → Nat) (hd : d < 1) (hp : 7 < p) :
    (lcd_setDelay d w).lcd.delay = 1
    ∧ lcd_setPattern p pattern w = lcd_setPattern 0 pattern w
    ∧ (transfers (pulsesFrom bus (emitted (lcd_setPattern p pattern) w.lcd))).head?
        = some ⟨0, 0x40⟩ := by
  have hd0 : d = 0 := by omega
  refine ⟨by rw [lcd_setDelay_eq, hd0]; rfl, lcd_setPattern_above_seven p pattern w hp, ?_⟩
  rw [emitted, lcd_setPattern_above_seven p pattern _ hp, ← emitted]
  exact head_transfers_setPattern_zero pattern w.lcd bus

/-- C16 as amended, at delay 0 and pattern id 9 on the sample handle. -/
theorem out_of_range_inputs_replaced_witness :
    0 < 1 ∧ 7 < 9
    ∧ (lcd_setDelay 0 ⟨sampleLcd, []⟩).lcd.delay = 1
    ∧ lcd_setPattern 9 samplePattern ⟨sampleLcd, []⟩
        = lcd_setPattern 0 samplePattern ⟨sampleLcd, []⟩ :=
  have h := out_of_range_inputs_replaced ⟨sampleLcd, []⟩ Bus.idle 0 9 samplePattern
    (by decide) (by decide)
  ⟨by decide, by decide, h.1, h.2.1⟩

/-! ## Display control with arguments other than 0 and 1 -/

theorem testBit_u8_or_shift (c m v k i : Nat) (hik : i < k) (hi : i < 8)
    (hm : m.testBit i = true) :
    (u8 ((c &&& m) ||| (v <<< k))).testBit i = c.testBit i := by
  have hge : ¬ k ≤ i := Nat.not_le.mpr hik
  show ((c &&& m ||| v <<< k) % 2 ^ 8).testBit i = c.testBit i
  rw [Nat.testBit_mod_two_pow, Nat.testBit_or, Nat.testBit_and, Nat.testBit_shiftLeft]
  simp [hi, hm, hge]

/-- C18 fails on the code: on the cached state 0x08, `lcd_cursorBlink 2` gives
0x0A, so the cursor bit (bit 1) is set and the blink bit is not; `lcd_showCursor 2`
gives 0x0C, so the display bit (bit 2) is set and the cursor bit is not; and
`lcd_displayCtrl 4` gives 0x18, changing bit 4. -/
theorem toggle_argument_two_clobbers :
    (lcd_cursorBlink 2 ⟨{ sampleLcd with displayCtrl := 0x08 }, []⟩).lcd.displayCtrl = 0x0A
    ∧ Nat.testBit 0x0A 1 ≠ Nat.testBit 0x08 1
    ∧ (lcd_showCursor 2 ⟨{ sampleLcd with displayCtrl := 0x08 }, []⟩).lcd.displayCtrl = 0x0C
    ∧ Nat.testBit 0x0C 2 ≠ Nat.testBit 0x08 2
    ∧ (lcd_displayCtrl 4 ⟨{ sampleLcd with displayCtrl := 0x08 }, []⟩).lcd.displayCtrl = 0x18
    ∧ Nat.testBit 0x18 4 ≠ Nat.testBit 0x08 4 := by
  refine ⟨?_, by decide, ?_, by decide, ?_, by decide⟩
  · rw [lcd_cursorBlink_eq]; decide
  · rw [lcd_showCursor_eq]; decide
  · rw [lcd_displayCtrl_eq]; decide

/-- C18 as amended: for every cached state (a byte) and every argument in
{0, 1}, each of `lcd_displayCtrl`, `lcd_showCursor` and `lcd_cursorBlink` changes
no bit of the cached state but its own; for every argument whatever,
`lcd_displayCtrl` leaves bits 1 and 0 as they were and `lcd_showCursor` leaves
bit 0 as it was. -/
theorem toggle_frame_by_argument (w : World) (v : Nat) (hc : w.lcd.displayCtrl < 256) :
    (v ≤ 1 → ∀ i, i ≠ 2 →
        (lcd_displayCtrl v w).lcd.displayCtrl.testBit i = w.lcd.displayCtrl.testBit i)
    ∧ (v ≤ 1 → ∀ i, i ≠ 1 →
        (lcd_showCursor v w).lcd.displayCtrl.testBit i = w.lcd.displayCtrl.testBit i)
    ∧ (v ≤ 1 → ∀ i, i ≠ 0 →
        (lcd_cursorBlink v w).lcd.displayCtrl.testBit i = w.lcd.displayCtrl.testBit i)
    ∧ (lcd_displayCtrl v w).lcd.displayCtrl.testBit 1 = w.lcd.displayCtrl.testBit 1
    ∧ (lcd_displayCtrl v w).lcd.displayCtrl.testBit 0 = w.lcd.displayCtrl.testBit 0
    ∧ (lcd_showCursor v w).lcd.displayCtrl.testBit 0 = w.lcd.displayCtrl.testBit 0 := by
  refine ⟨?_, ?_, ?_, ?_, ?_, ?_⟩
  · intro hv i hi
    have h := (Toggle.displayCtrl v).run_testBit w hc hv i
    simp only [Toggle.bit, if_neg hi] at h
    exact h
  · intro hv i hi
    have h := (Toggle.showCursor v).run_testBit w hc hv i
    simp only [Toggle.bit, if_neg hi] at h
    exact h
  · intro hv i hi
    have h := (Toggle.cursorBlink v).run_testBit w hc hv i
    simp only [Toggle.bit, if_neg hi] at h
    exact h
  · rw [lcd_displayCtrl_eq]
    exact testBit_u8_or_shift _ _ v 2 1 (by decide) (by decide) (by decide)
  · rw [lcd_displayCtrl_eq]
    exact testBit_u8_or_shift _ _ v 2 0 (by decide) (by decide) (by decide)
  · rw [lcd_showCursor_eq]
    exact testBit_u8_or_shift _ _ v 1 0 (by decide) (by decide) (by decide)

/-- C18 as amended, at argument 2 on the sample handle (cached state 0x0C):
`lcd_displayCtrl 2` leaves bits 1 and 0 as they were. -/
theorem toggle_frame_by_argument_witness :
    sampleLcd.displayCtrl < 256
    ∧ (lcd_displayCtrl 2 ⟨sampleLcd, []⟩).lcd.displayCtrl.testBit 1
        = sampleLcd.displayCtrl.testBit 1
    ∧ (lcd_displayCtrl 2 ⟨sampleLcd, []⟩).lcd.displayCtrl.testBit 0
        = sampleLcd.displayCtrl.testBit 0 :=
  have h := toggle_frame_by_argument ⟨sampleLcd, []⟩ 2 (by decide)
  ⟨by decide, h.2.2.2.1, h.2.2.2.2.1⟩

/-! ## The delay across `lcd_setPattern` -/

/-- C19: for every handle with delay `d` in 1..65535, every pattern id and every
pattern, the delay after `lcd_setPattern` is `max (d mod 256) 1`; it is `d`
exactly when `d ≤ 255`, and then the call leaves the whole handle as it was. -/
theorem setPattern_delay_mod_256 (w : World) (p : Nat) (pattern : Nat → Nat)
    (h1 : 1 ≤ w.lcd.delay) (h16 : w.lcd.delay ≤ 65535) :
    (lcd_setPattern p pattern w).lcd.delay = max (w.lcd.delay % 256) 1
    ∧ ((lcd_setPattern p pattern w).lcd.delay = w.lcd.delay ↔ w.lcd.delay ≤ 255)
    ∧ (w.lcd.delay ≤ 255 → (lcd_setPattern p pattern w).lcd = w.lcd) := by
  have hd : (lcd_setPattern p pattern w).lcd.delay = max (w.lcd.delay % 256) 1 := by
    rw [lcd_setPattern_eq]; rfl
  refine ⟨hd, ?_, ?_⟩
  · rw [hd]; omega
  · intro h255
    have hm : max (u8 w.lcd.delay) 1 = w.lcd.delay := by
      unfold u8; omega
    rw [lcd_setPattern_eq]
    simp only [hm]

/-- C19 on the sample handle with delay 300 (left at 44) and with delay 5 (kept). -/
theorem setPattern_delay_mod_256_witness :
    (1 ≤ 300 ∧ 300 ≤ 65535
      ∧ (lcd_setPattern 2 samplePattern ⟨{ sampleLcd with delay := 300 }, []⟩).lcd.delay
          = max (300 % 256) 1)
    ∧ (1 ≤ sampleLcd.delay ∧ sampleLcd.delay ≤ 65535 ∧ sampleLcd.delay ≤ 255
      ∧ (lcd_setPattern 2 samplePattern ⟨sampleLcd, []⟩).lcd = sampleLcd) :=
  ⟨⟨by decide, by decide,
     (setPattern_delay_mod_256 ⟨{ sampleLcd with delay := 300 }, []⟩ 2 samplePattern
        (by decide) (by decide)).1⟩,
   ⟨by decide, by decide, by decide,
     (setPattern_delay_mod_256 ⟨sampleLcd, []⟩ 2 samplePattern (by decide) (by decide)).2.2
        (by decide)⟩⟩

/-! ## Every call as a sequence of write calls and bare pulses -/

theorem lcd_printMsg_loop_shift (msg : Nat → Nat) :
    ∀ (fuel i : Nat) (w : World),
      lcd_printMsg_loop (fun j => msg (j + 1)) fuel i w = lcd_printMsg_loop msg fuel (i + 1) w := by
  intro fuel
  induction fuel with
  | zero => intro i w; rfl
  | succ f ih =>
    intro i w
    simp only [lcd_printMsg_loop]
    rw [ih]

theorem cstring_cons_succ (c : Nat) (cs : List Nat) :
    (fun j => cstring (c :: cs) (j + 1)) = cstring cs := by
  funext j
  simp [cstring]

theorem lcd_printMsg_cstring (text : List Nat) :
    ∀ (fuel : Nat) (w : World), text.length < fuel →
      lcd_printMsg_loop (cstring text) fuel 0 w
        = some ⟨w.lcd, w.trace ++ (untilNul text).flatMap (dataEvents w.lcd)⟩ := by
  induction text with
  | nil =>
    intro fuel w hf
    obtain ⟨f, rfl⟩ : ∃ f, fuel = f + 1 := ⟨fuel - 1, by simp at hf; omega⟩
    simp [lcd_printMsg_loop, cstring, untilNul]
  | cons c cs ih =>
    intro fuel w hf
    obtain ⟨f, rfl⟩ : ∃ f, fuel = f + 1 := ⟨fuel - 1, by simp at hf; omega⟩
    have hf' : cs.length < f := by simp at hf; omega
    have h0 : cstring (c :: cs) 0 = c := by simp [cstring]
    by_cases hc : c = 0
    · subst hc
      rw [lcd_printMsg_loop, h0, if_neg (by simp)]
      simp [untilNul]
    · rw [lcd_printMsg_loop, h0, if_pos hc, ← lcd_printMsg_loop_shift, cstring_cons_succ,
        ih f _ hf', lcd_writeData_eq]
      simp [untilNul, hc]

theorem lcd_pulseEn_eq (w : World) :
    lcd_pulseEn w = ⟨w.lcd, w.trace ++ [Event.write Role.EN w.lcd.EN_port w.lcd.EN_pin 1,
      Event.delay w.lcd.delay, Event.write Role.EN w.lcd.EN_port w.lcd.EN_pin 0]⟩ := by
  simp [lcd_pulseEn, HAL_GPIO_WritePin, HAL_Delay, GPIO_PIN_SET, GPIO_PIN_RESET]

theorem emitted_pulseEn (lcd : LCD_t) :
    emitted lcd_pulseEn lcd = [Event.write Role.EN lcd.EN_port lcd.EN_pin 1,
      Event.delay lcd.delay, Event.write Role.EN lcd.EN_port lcd.EN_pin 0] := by
  simp [emitted, lcd_pulseEn_eq]

theorem flatMap_data_segs (l : LCD_t) (t : List Nat) :
    (t.map (Seg.data l)).flatMap Seg.events = t.flatMap (dataEvents l) := by
  induction t with
  | nil => rfl
  | cons c cs ih =>
    rw [List.map_cons, List.flatMap_cons, List.flatMap_cons, ih]
    simp [Seg.events, emitted_writeData]

/-- Every call returns; it leaves the handle `Op.handle` gives and appends the
events of the stretches `Op.segs` gives. -/
theorem Op.run_handle_segs (op : Op) (w : World) :
    op.run w = some ⟨op.handle w.lcd, w.trace ++ (op.segs w.lcd).flatMap Seg.events⟩ := by
  cases op with
  | setDelay d => simp [Op.run, Op.handle, Op.segs, lcd_setDelay_eq]
  | pulseEn => simp [Op.run, Op.handle, Op.segs, Seg.events, emitted_pulseEn, lcd_pulseEn_eq]
  | writeCommand c =>
    simp [Op.run, Op.handle, Op.segs, Seg.events, emitted_writeCommand, lcd_writeCommand_eq]
  | writeData d =>
    simp [Op.run, Op.handle, Op.segs, Seg.events, emitted_writeData, lcd_writeData_eq]
  | clearDisplay =>
    simp [Op.run, Op.handle, Op.segs, Seg.events, emitted_writeCommand, lcd_writeCommand_eq,
      lcd_clearDisplay, LCD_CMD_CLEAR_DISPLAY]
  | returnHome =>
    simp [Op.run, Op.handle, Op.segs, Seg.events, emitted_writeCommand, lcd_writeCommand_eq,
      lcd_returnHome, LCD_CMD_RETURN_HOME]
  | setEntryMode i s =>
    simp [Op.run, Op.handle, Op.segs, Seg.events, emitted_writeCommand, lcd_writeCommand_eq,
      lcd_setEntryMode, LCD_CMD_ENTRY_MODE]
  | displayCtrl v =>
    simp [Op.run, Op.handle, Op.segs, Seg.events, emitted_writeCommand, lcd_displayCtrl_eq,
      transferEvents, instr]
  | showCursor v =>
    simp [Op.run, Op.handle, Op.segs, Seg.events, emitted_writeCommand, lcd_showCursor_eq,
      transferEvents, instr]
  | cursorBlink v =>
    simp [Op.run, Op.handle, Op.segs, Seg.events, emitted_writeCommand, lcd_cursorBlink_eq,
      transferEvents, instr]
  | cursorShift d =>
    simp [Op.run, Op.handle, Op.segs, Seg.events, emitted_writeCommand, lcd_writeCommand_eq,
      lcd_cursorShift, LCD_CMD_DISPLAY_SHIFT]
  | displayShift d =>
    simp [Op.run, Op.handle, Op.segs, Seg.events, emitted_writeCommand, lcd_writeCommand_eq,
      lcd_displayShift, LCD_CMD_DISPLAY_SHIFT]
  | setCursor r c =>
    simp [Op.run, Op.handle, Op.segs, Seg.events, emitted_writeCommand, lcd_writeCommand_eq,
      lcd_setCursor, LCD_CMD_SET_DDRAM_ADR]
  | setPattern p pattern =>
    have hr : List.range 8 = [0, 1, 2, 3, 4, 5, 6, 7] := by decide
    simp [Op.run, Op.handle, Op.segs, Seg.events, emitted_writeCommand, emitted_writeData,
      lcd_setPattern_eq, transferEvents, instr, datum, hr, LCD_CMD_SET_CGRAM_ADR]
  | printMsg text =>
    simp only [Op.run, Op.handle, Op.segs, lcd_printMsg, flatMap_data_segs]
    exact lcd_printMsg_cstring text _ w (Nat.lt_succ_self _)
  | printChar c =>
    simp [Op.run, Op.handle, Op.segs, Seg.events, emitted_writeData, lcd_writeData_eq,
      lcd_printChar]
  | reset =>
    simp [Op.run, Op.handle, Op.segs, Seg.events, emitted_writeCommand, lcd_reset_eq,
      transferEvents, instr, commandEvents]
  | init =>
    simp [Op.run, Op.handle, Op.segs, Seg.events, emitted_writeCommand, lcd_init_eq,
      transferEvents, instr, commandEvents]

/-- Every sequence of calls returns, with the handle and the stretches of its
calls one after the other. -/
theorem runOps_eq (ops : List Op) (w : World) :
    runOps ops w
      = some ⟨handleAfter ops w.lcd, w.trace ++ (segsOf ops w.lcd).flatMap Seg.events⟩ := by
  induction ops generalizing w with
  | nil => simp [runOps, handleAfter, segsOf]
  | cons op ops ih =>
    rw [runOps, op.run_handle_segs w, Option.some_bind, ih]
    simp [handleAfter, segsOf, List.flatMap_append]

/-! ## The delay is never below 1 ms -/

theorem Op.handle_delay (op : Op) (l : LCD_t) (h : 1 ≤ l.delay) : 1 ≤ (op.handle l).delay := by
  cases op <;> simp only [Op.handle] <;> first | exact h | exact Nat.le_max_right _ _ | decide

theorem Op.segs_delay (op : Op) (l : LCD_t) (h : 1 ≤ l.delay) :
    ∀ sg ∈ op.segs l, 1 ≤ sg.lcd.delay := by
  intro sg hsg
  cases op <;> simp [Op.segs] at hsg
  all_goals first
    | (subst hsg; exact h)
    | (rcases hsg with rfl | rfl | rfl <;> exact Nat.le_refl 1)
    | (rcases hsg with rfl | rfl | rfl | rfl | rfl | rfl | rfl <;> exact Nat.le_refl 1)
    | (rcases hsg with rfl | ⟨i, -, rfl⟩ | rfl <;> exact Nat.le_refl 1)
    | (obtain ⟨c, -, rfl⟩ := hsg; exact h)

theorem handleAfter_delay (ops : List Op) (l : LCD_t) (h : 1 ≤ l.delay) :
    1 ≤ (handleAfter ops l).delay := by
  induction ops generalizing l with
  | nil => exact h
  | cons op ops ih => exact ih _ (op.handle_delay l h)

theorem segsOf_delay (ops : List Op) (l : LCD_t) (h : 1 ≤ l.delay) :
    ∀ sg ∈ segsOf ops l, 1 ≤ sg.lcd.delay := by
  induction ops generalizing l with
  | nil => intro sg hsg; simp [segsOf] at hsg
  | cons op ops ih =>
    intro sg hsg
    simp only [segsOf, List.mem_append] at hsg
    rcases hsg with hsg | hsg
    · exact op.segs_delay l h sg hsg
    · exact ih _ (op.handle_delay l h) sg hsg

theorem Seg.delay_mem_events (sg : Seg) (ms : Nat) (h : Event.delay ms ∈ sg.events) :
    ms = sg.lcd.delay := by
  cases sg <;>
    simp [Seg.events, Seg.lcd, emitted_writeCommand, emitted_writeData, emitted_pulseEn,
      commandEvents, dataEvents] at h ⊢ <;> exact h

/-- C13: `lcd_setDelay`, `lcd_reset` and `lcd_init` leave a delay of at least 1
from any state `v`; from a state with delay at least 1, every call `op`, with any
arguments, returns and leaves a delay of at least 1, and every sequence `ops` of
calls returns, leaves a delay of at least 1, and every delay event it appends to
the trace lasts at least 1 ms. -/
theorem delay_at_least_one (ops : List Op) (op : Op) (w : World) (d : Nat)
    (h : 1 ≤ w.lcd.delay) :
    (∀ v : World, 1 ≤ (lcd_setDelay d v).lcd.delay ∧ 1 ≤ (lcd_reset v).lcd.delay
        ∧ 1 ≤ (lcd_init v).lcd.delay)
    ∧ (∃ w', op.run w = some w' ∧ 1 ≤ w'.lcd.delay)
    ∧ (∃ w' T, runOps ops w = some w' ∧ 1 ≤ w'.lcd.delay ∧ w'.trace = w.trace ++ T
        ∧ ∀ ms, Event.delay ms ∈ T → 1 ≤ ms) := by
  refine ⟨?_, ?_, ?_⟩
  · intro v
    refine ⟨?_, ?_, ?_⟩
    · rw [lcd_setDelay_eq]; exact Nat.le_max_right _ _
    · rw [lcd_reset_eq]
    · rw [lcd_init_eq]
  · exact ⟨_, op.run_handle_segs w, op.handle_delay w.lcd h⟩
  · refine ⟨_, _, runOps_eq ops w, handleAfter_delay ops w.lcd h, rfl, ?_⟩
    intro ms hms
    obtain ⟨sg, hsg, hev⟩ := List.mem_flatMap.mp hms
    rw [sg.delay_mem_events ms hev]
    exact segsOf_delay ops w.lcd h sg hsg

/-- C13 on the sample handle (delay 5): after `lcd_setPattern`, `lcd_setDelay 0` and
a text, the delay is still at least 1. -/
theorem delay_at_least_one_witness :
    1 ≤ sampleLcd.delay
    ∧ ∃ w', runOps [Op.setPattern 3 samplePattern, Op.setDelay 0, Op.printMsg [0x48, 0x69]]
        ⟨sampleLcd, []⟩ = some w' ∧ 1 ≤ w'.lcd.delay :=
  have h := delay_at_least_one
    [Op.setPattern 3 samplePattern, Op.setDelay 0, Op.printMsg [0x48, 0x69]] Op.reset
    ⟨sampleLcd, []⟩ 0 (by decide)
  ⟨by decide, h.2.2.elim fun w' hw => hw.elim fun _ hT => ⟨w', hT.1, hT.2.1⟩⟩

/-! ## The pins, and the handle under the read-only operations -/

theorem Op.handle_pins (op : Op) (l : LCD_t) : (op.handle l).pins = l.pins := by
  cases op <;> rfl

theorem Op.handle_readOnly (op : Op) (l : LCD_t) (h : op.readOnly = true) :
    op.handle l = l := by
  cases op <;> first | rfl | (simp [Op.readOnly] at h)

theorem handleAfter_pins (ops : List Op) (l : LCD_t) : (handleAfter ops l).pins = l.pins := by
  induction ops generalizing l with
  | nil => rfl
  | cons op ops ih => exact (ih _).trans (op.handle_pins l)

/-- C15: every call `op`, with any arguments, returns and leaves the seven pin
identifiers of the handle as they were, and so does every sequence `ops` of calls;
a call of `lcd_pulseEn`, `lcd_writeCommand`, `lcd_writeData`, `lcd_clearDisplay`,
`lcd_returnHome`, `lcd_setEntryMode`, `lcd_cursorShift`, `lcd_displayShift`,
`lcd_setCursor`, `lcd_printMsg` or `lcd_printChar` leaves the whole handle as it
was. -/
theorem pins_never_change (ops : List Op) (op : Op) (w : World) :
    (∃ w', op.run w = some w' ∧ w'.lcd.pins = w.lcd.pins
        ∧ (op.readOnly = true → w'.lcd = w.lcd))
    ∧ (∃ w', runOps ops w = some w' ∧ w'.lcd.pins = w.lcd.pins)
    ∧ (∀ c d i s r text,
        (Op.pulseEn).readOnly = true ∧ (Op.writeCommand c).readOnly = true
        ∧ (Op.writeData d).readOnly = true ∧ (Op.clearDisplay).readOnly = true
        ∧ (Op.returnHome).readOnly = true ∧ (Op.setEntryMode i s).readOnly = true
        ∧ (Op.cursorShift d).readOnly = true ∧ (Op.displayShift d).readOnly = true
        ∧ (Op.setCursor r c).readOnly = true ∧ (Op.printMsg text).readOnly = true
        ∧ (Op.printChar c).readOnly = true) := by
  refine ⟨⟨_, op.run_handle_segs w, op.handle_pins w.lcd, fun h => op.handle_readOnly w.lcd h⟩,
    ⟨_, runOps_eq ops w, handleAfter_pins ops w.lcd⟩, ?_⟩
  intro c d i s r text
  exact ⟨rfl, rfl, rfl, rfl, rfl, rfl, rfl, rfl, rfl, rfl, rfl⟩

/-! ## The cached display state stays a display-control instruction -/

theorem toggle_range : ∀ c < 16, 8 ≤ c → ∀ v < 2,
    (8 ≤ u8 ((c &&& compl32 0x4) ||| (v <<< 2)) ∧ u8 ((c &&& compl32 0x4) ||| (v <<< 2)) ≤ 15)
    ∧ (8 ≤ u8 ((c &&& compl32 0x2) ||| (v <<< 1)) ∧ u8 ((c &&& compl32 0x2) ||| (v <<< 1)) ≤ 15)
    ∧ (8 ≤ u8 ((c &&& compl32 0x1) ||| v) ∧ u8 ((c &&& compl32 0x1) ||| v) ≤ 15) := by
  decide

theorem display_control_form : ∀ c < 16, 8 ≤ c →
    c = 0x08 ||| (((c >>> 2) &&& 1) <<< 2) ||| (((c >>> 1) &&& 1) <<< 1) ||| (c &&& 1)
    ∧ c.testBit 3 = true ∧ c >>> 4 = 0 := by
  decide

theorem Op.handle_ctrl (op : Op) (l : LCD_t) (hop : op.toggleArgOk = true)
    (h8 : 8 ≤ l.displayCtrl) (h15 : l.displayCtrl ≤ 15) :
    8 ≤ (op.handle l).displayCtrl ∧ (op.handle l).displayCtrl ≤ 15 := by
  cases op with
  | displayCtrl v =>
    have hv : v < 2 := by simpa [Op.toggleArgOk, Nat.lt_succ_iff] using hop
    exact (toggle_range _ (Nat.lt_succ_of_le h15) h8 v hv).1
  | showCursor v =>
    have hv : v < 2 := by simpa [Op.toggleArgOk, Nat.lt_succ_iff] using hop
    exact (toggle_range _ (Nat.lt_succ_of_le h15) h8 v hv).2.1
  | cursorBlink v =>
    have hv : v < 2 := by simpa [Op.toggleArgOk, Nat.lt_succ_iff] using hop
    exact (toggle_range _ (Nat.lt_succ_of_le h15) h8 v hv).2.2
  | reset => exact ⟨(by decide : 8 ≤ 0x08), (by decide : 0x08 ≤ 15)⟩
  | init => exact ⟨(by decide : 8 ≤ 0x0E), (by decide : 0x0E ≤ 15)⟩
  | _ => exact ⟨h8, h15⟩

theorem handleAfter_ctrl (ops : List Op) (l : LCD_t) (hops : ∀ op ∈ ops, op.toggleArgOk = true)
    (h8 : 8 ≤ l.displayCtrl) (h15 : l.displayCtrl ≤ 15) :
    8 ≤ (handleAfter ops l).displayCtrl ∧ (handleAfter ops l).displayCtrl ≤ 15 := by
  induction ops generalizing l with
  | nil => exact ⟨h8, h15⟩
  | cons op ops ih =>
    have h := op.handle_ctrl l (hops op (List.mem_cons_self _ _)) h8 h15
    exact ih _ (fun o ho => hops o (List.mem_cons_of_mem _ ho)) h.1 h.2

theorem Toggle.transfers_run (t : Toggle) (lcd : LCD_t) (bus : Bus) :
    transfers (pulsesFrom bus (emitted t.run lcd))
      = [⟨0, (t.run ⟨lcd, []⟩).lcd.displayCtrl⟩] := by
  have he : emitted t.run lcd
      = emitted (lcd_writeCommand (t.run ⟨lcd, []⟩).lcd.displayCtrl) lcd := by
    rw [emitted_writeCommand, emitted, t.run_eq ⟨lcd, []⟩]
    rfl
  rw [he]
  exact transfers_writeCommand lcd bus _ (t.run_lt _)

theorem Toggle.run_range (t : Toggle) (w : World) (ht : t.arg ≤ 1)
    (h8 : 8 ≤ w.lcd.displayCtrl) (h15 : w.lcd.displayCtrl ≤ 15) :
    8 ≤ (t.run w).lcd.displayCtrl ∧ (t.run w).lcd.displayCtrl ≤ 15 := by
  have hr := fun v hv => toggle_range _ (Nat.lt_succ_of_le h15) h8 v hv
  cases t with
  | displayCtrl v =>
    simpa [Toggle.run, lcd_displayCtrl_eq] using (hr v (Nat.lt_succ_of_le ht)).1
  | showCursor v =>
    simpa [Toggle.run, lcd_showCursor_eq] using (hr v (Nat.lt_succ_of_le ht)).2.1
  | cursorBlink v =>
    simpa [Toggle.run, lcd_cursorBlink_eq] using (hr v (Nat.lt_succ_of_le ht)).2.2

/-- C17: start from the state `w0` that `lcd_reset` or `lcd_init` leaves, and
perform any sequence `ops` of calls in which `lcd_displayCtrl`, `lcd_showCursor`
and `lcd_cursorBlink` get arguments in {0, 1}.  The sequence returns and the
cached display state it leaves lies in 0x08..0x0F.  Any of the three operations
called next, with an argument in {0, 1}, writes one instruction byte `c`, the
new cached state, which again lies in 0x08..0x0F: bit 3 set, bits 7..4 clear,
`c = 0x08 | (display << 2) | (cursor << 1) | blink` for its own three low bits. -/
theorem displayCtrl_stays_display_control (ops : List Op) (w w0 : World) (bus : Bus)
    (t : Toggle) (hstart : w0 = lcd_reset w ∨ w0 = lcd_init w)
    (hops : ∀ op ∈ ops, op.toggleArgOk = true) (ht : t.arg ≤ 1) :
    ∃ w', runOps ops w0 = some w'
      ∧ 8 ≤ w'.lcd.displayCtrl ∧ w'.lcd.displayCtrl ≤ 15
      ∧ transfers (pulsesFrom bus (emitted t.run w'.lcd)) = [⟨0, (t.run w').lcd.displayCtrl⟩]
      ∧ 8 ≤ (t.run w').lcd.displayCtrl ∧ (t.run w').lcd.displayCtrl ≤ 15
      ∧ (t.run w').lcd.displayCtrl
          = 0x08 ||| ((((t.run w').lcd.displayCtrl >>> 2) &&& 1) <<< 2)
              ||| ((((t.run w').lcd.displayCtrl >>> 1) &&& 1) <<< 1)
              ||| ((t.run w').lcd.displayCtrl &&& 1)
      ∧ (t.run w').lcd.displayCtrl.testBit 3 = true
      ∧ (t.run w').lcd.displayCtrl >>> 4 = 0 := by
  have h0 : 8 ≤ w0.lcd.displayCtrl ∧ w0.lcd.displayCtrl ≤ 15 := by
    rcases hstart with rfl | rfl
    · rw [lcd_reset_eq]; exact ⟨(by decide : 8 ≤ 0x08), (by decide : 0x08 ≤ 15)⟩
    · rw [lcd_init_eq]; exact ⟨(by decide : 8 ≤ 0x0E), (by decide : 0x0E ≤ 15)⟩
  have hw := handleAfter_ctrl ops w0.lcd hops h0.1 h0.2
  have hr := t.run_range ⟨handleAfter ops w0.lcd,
    w0.trace ++ (segsOf ops w0.lcd).flatMap Seg.events⟩ ht hw.1 hw.2
  have hf := display_control_form _ (Nat.lt_succ_of_le hr.2) hr.1
  refine ⟨_, runOps_eq ops w0, hw.1, hw.2, ?_, hr.1, hr.2, hf.1, hf.2.1, hf.2.2⟩
  rw [t.transfers_run, t.run_lcd]

/-- C17 on the sample handle: after `lcd_init`, a cursor shift, blink on and
display off, `lcd_showCursor 0` writes a byte in 0x08..0x0F. -/
theorem displayCtrl_stays_display_control_witness :
    (lcd_init ⟨sampleLcd, []⟩ = lcd_reset ⟨sampleLcd, []⟩
        ∨ lcd_init ⟨sampleLcd, []⟩ = lcd_init ⟨sampleLcd, []⟩)
    ∧ (∀ op ∈ [Op.cursorShift 1, Op.cursorBlink 1, Op.displayCtrl 0], op.toggleArgOk = true)
    ∧ (Toggle.showCursor 0).arg ≤ 1
    ∧ ∃ w', runOps [Op.cursorShift 1, Op.cursorBlink 1, Op.displayCtrl 0]
          (lcd_init ⟨sampleLcd, []⟩) = some w'
        ∧ 8 ≤ w'.lcd.displayCtrl ∧ w'.lcd.displayCtrl ≤ 15
        ∧ 8 ≤ ((Toggle.showCursor 0).run w').lcd.displayCtrl
        ∧ ((Toggle.showCursor 0).run w').lcd.displayCtrl ≤ 15 :=
  have hops : ∀ op ∈ [Op.cursorShift 1, Op.cursorBlink 1, Op.displayCtrl 0],
      op.toggleArgOk = true := by
    intro op hop
    simp only [List.mem_cons, List.mem_singleton, List.not_mem_nil, or_false] at hop
    rcases hop with rfl | rfl | rfl <;> rfl
  have h := displayCtrl_stays_display_control
    [Op.cursorShift 1, Op.cursorBlink 1, Op.displayCtrl 0] ⟨sampleLcd, []⟩
    (lcd_init ⟨sampleLcd, []⟩) Bus.idle (Toggle.showCursor 0) (Or.inr rfl) hops (by decide)
  ⟨Or.inr rfl, hops, by decide,
    h.elim fun w' hw => ⟨w', hw.1, hw.2.1, hw.2.2.1, hw.2.2.2.2.1, hw.2.2.2.2.2.1⟩⟩

/-! ## What the bus shows, stretch by stretch -/

theorem level_mod_two (x : Nat) : level (x % 2) = x % 2 := by
  rw [← Nat.and_one_is_mod]; exact level_and_one x

/-- The Register-Select level and the hold time of the pulses of a stretch, from
any bus state. -/
theorem Seg.pulse_lines (sg : Seg) (bus : Bus) :
    (pulsesFrom bus sg.events).map (fun p => (p.rs, p.held))
      = match sg with
        | Seg.command l _ => [(0, l.delay), (0, l.delay)]
        | Seg.data l _ => [(1, l.delay), (1, l.delay)]
        | Seg.pulse l => [(bus.RS, l.delay)] := by
  have h0 : level 0 = 0 := rfl
  have h1 : level 1 = 1 := rfl
  cases sg with
  | command l c =>
    simp only [Seg.events, emitted_writeCommand, commandEvents]
    simp [pulsesFrom, Bus.step, h0, h1, level_mod_two]
  | data l d =>
    simp only [Seg.events, emitted_writeData, dataEvents, commandEvents, List.tail_cons]
    simp [pulsesFrom, Bus.step, h0, h1, level_mod_two]
  | pulse l =>
    simp only [Seg.events, emitted_pulseEn]
    simp [pulsesFrom, Bus.step, h0, h1]

theorem Seg.length_pulses (sg : Seg) (bus : Bus) :
    (pulsesFrom bus sg.events).length = 2 * sg.bytes + (if sg.isPulse = true then 1 else 0) := by
  have h := congrArg List.length (sg.pulse_lines bus)
  rw [List.length_map] at h
  rw [h]
  cases sg <;> rfl

theorem Seg.rs_pulses (sg : Seg) (bus : Bus) (p : Pulse) (hp : p ∈ pulsesFrom bus sg.events) :
    (∀ l c, sg = Seg.command l c → p.rs = 0) ∧ (∀ l d, sg = Seg.data l d → p.rs = 1) := by
  have hm : (p.rs, p.held) ∈ (pulsesFrom bus sg.events).map (fun q => (q.rs, q.held)) :=
    List.mem_map_of_mem _ hp
  rw [sg.pulse_lines bus] at hm
  constructor
  · intro l c hsg
    subst hsg
    simp only [List.mem_cons, List.mem_singleton, List.not_mem_nil, or_false, Prod.mk.injEq,
      or_self] at hm
    exact hm.1
  · intro l d hsg
    subst hsg
    simp only [List.mem_cons, List.mem_singleton, List.not_mem_nil, or_false, Prod.mk.injEq,
      or_self] at hm
    exact hm.1

theorem tagPulses_snd (sgs : List Seg) (bus : Bus) :
    (tagPulses bus sgs).map Prod.snd = pulsesFrom bus (sgs.flatMap Seg.events) := by
  induction sgs generalizing bus with
  | nil => rfl
  | cons sg sgs ih =>
    rw [tagPulses, List.map_append, ih, List.flatMap_cons, pulsesFrom_append, List.map_map]
    congr 1
    exact List.map_id _

theorem tagPulses_rs (sgs : List Seg) (bus : Bus) (sg : Seg) (p : Pulse)
    (h : (sg, p) ∈ tagPulses bus sgs) :
    (∀ l c, sg = Seg.command l c → p.rs = 0) ∧ (∀ l d, sg = Seg.data l d → p.rs = 1) := by
  induction sgs generalizing bus with
  | nil => simp [tagPulses] at h
  | cons s0 sgs ih =>
    rw [tagPulses, List.mem_append] at h
    rcases h with h | h
    · obtain ⟨q, hq, he⟩ := List.mem_map.mp h
      obtain ⟨rfl, rfl⟩ := Prod.mk.inj he
      exact s0.rs_pulses bus q hq
    · exact ih _ h

theorem Seg.rw_low (sg : Seg) (port pin v : Nat)
    (h : Event.write Role.RW port pin v ∈ sg.events) : v = 0 := by
  cases sg <;>
    simp [Seg.events, emitted_writeCommand, emitted_writeData, emitted_pulseEn, commandEvents,
      dataEvents] at h
  all_goals exact h.2.2

/-- C14: every sequence of calls, with any arguments, returns, and the events it
appends are the stretches of its write calls and bare pulses one after the
other.  Every write to the Read/Write line among them is low.  Read from any bus
state, every Enable pulse falls in one stretch, and Register-Select is low at each
pulse of a stretch emitted by `lcd_writeCommand` and high at each pulse of a
stretch emitted by `lcd_writeData`. -/
theorem rw_low_and_rs_by_register (ops : List Op) (w : World) (bus : Bus) :
    ∃ w', runOps ops w = some w'
      ∧ w'.trace = w.trace ++ (segsOf ops w.lcd).flatMap Seg.events
      ∧ (∀ port pin v,
          Event.write Role.RW port pin v ∈ (segsOf ops w.lcd).flatMap Seg.events → v = 0)
      ∧ (tagPulses bus (segsOf ops w.lcd)).map Prod.snd
          = pulsesFrom bus ((segsOf ops w.lcd).flatMap Seg.events)
      ∧ (∀ sg p, (sg, p) ∈ tagPulses bus (segsOf ops w.lcd) →
          (∀ l c, sg = Seg.command l c → p.rs = 0) ∧ (∀ l d, sg = Seg.data l d → p.rs = 1)) := by
  refine ⟨_, runOps_eq ops w, rfl, ?_, tagPulses_snd _ bus, ?_⟩
  · intro port pin v hv
    obtain ⟨sg, -, hev⟩ := List.mem_flatMap.mp hv
    exact sg.rw_low port pin v hev
  · intro sg p h
    exact tagPulses_rs _ bus sg p h

/-! ## The Enable pulse discipline -/

theorem enRun_append (ph : EnPhase) (s t : List Event) :
    enRun ph (s ++ t) = (enRun ph s).bind fun ph' => enRun ph' t := by
  induction s generalizing ph with
  | nil => rfl
  | cons e es ih =>
    simp only [List.cons_append, enRun]
    cases ph.step e with
    | none => rfl
    | some ph' => exact ih ph'

theorem Seg.enRun_events (sg : Seg) : enRun EnPhase.low sg.events = some EnPhase.low := by
  have h0 : level 0 = 0 := rfl
  have h1 : level 1 = 1 := rfl
  cases sg with
  | command l c =>
    simp only [Seg.events, emitted_writeCommand, commandEvents]
    simp [enRun, EnPhase.step, h0, h1]
  | data l d =>
    simp only [Seg.events, emitted_writeData, dataEvents, commandEvents, List.tail_cons]
    simp [enRun, EnPhase.step, h0, h1]
  | pulse l =>
    simp only [Seg.events, emitted_pulseEn]
    simp [enRun, EnPhase.step, h0, h1]

theorem enRun_segs (sgs : List Seg) :
    enRun EnPhase.low (sgs.flatMap Seg.events) = some EnPhase.low := by
  induction sgs with
  | nil => rfl
  | cons sg sgs ih => rw [List.flatMap_cons, enRun_append, sg.enRun_events, Option.some_bind, ih]

theorem Seg.count_rs (sg : Seg) : (sg.events.filter Event.isRS).length = sg.bytes := by
  cases sg with
  | command l c =>
    simp only [Seg.events, emitted_writeCommand, commandEvents]
    simp [Event.isRS, Seg.bytes]
  | data l d =>
    simp only [Seg.events, emitted_writeData, dataEvents, commandEvents, List.tail_cons]
    simp [Event.isRS, Seg.bytes]
  | pulse l =>
    simp only [Seg.events, emitted_pulseEn]
    simp [Event.isRS, Seg.bytes]

theorem count_rs_segs (sgs : List Seg) :
    ((sgs.flatMap Seg.events).filter Event.isRS).length = (sgs.map Seg.bytes).sum := by
  induction sgs with
  | nil => rfl
  | cons sg sgs ih =>
    rw [List.flatMap_cons, List.filter_append, List.length_append, sg.count_rs, ih,
      List.map_cons, List.sum_cons]

theorem length_pulses_segs (sgs : List Seg) (bus : Bus) :
    (pulsesFrom bus (sgs.flatMap Seg.events)).length
      = 2 * (sgs.map Seg.bytes).sum + sgs.countP Seg.isPulse := by
  induction sgs generalizing bus with
  | nil => rfl
  | cons sg sgs ih =>
    rw [List.flatMap_cons, pulsesFrom_append, List.length_append, sg.length_pulses, ih,
      List.map_cons, List.sum_cons, List.countP_cons]
    omega

theorem Op.countP_segs (op : Op) (l : LCD_t) :
    (op.segs l).countP Seg.isPulse = if op.isPulseEn = true then 1 else 0 := by
  cases op <;> simp [Op.segs, Op.isPulseEn, Seg.isPulse, List.countP_cons, List.countP_eq_zero]

theorem countP_segsOf (ops : List Op) (l : LCD_t) :
    (segsOf ops l).countP Seg.isPulse = ops.countP Op.isPulseEn := by
  induction ops generalizing l with
  | nil => rfl
  | cons op ops ih =>
    rw [segsOf, List.countP_append, ih, op.countP_segs, List.countP_cons]
    omega

theorem Seg.getLast_events (sg : Seg) :
    sg.events.getLast? = some (Event.write Role.EN sg.lcd.EN_port sg.lcd.EN_pin 0) := by
  cases sg with
  | command l c =>
    simp only [Seg.events, emitted_writeCommand, commandEvents]
    simp [Seg.lcd]
  | data l d =>
    simp only [Seg.events, emitted_writeData, dataEvents, commandEvents, List.tail_cons]
    simp [Seg.lcd]
  | pulse l =>
    simp only [Seg.events, emitted_pulseEn]
    simp [Seg.lcd]

theorem getLast_segs (sgs : List Seg) (h : sgs ≠ []) :
    ∃ port pin, (sgs.flatMap Seg.events).getLast? = some (Event.write Role.EN port pin 0) := by
  induction sgs with
  | nil => exact absurd rfl h
  | cons sg sgs ih =>
    rw [List.flatMap_cons, List.getLast?_append, sg.getLast_events]
    by_cases hs : sgs = []
    · subst hs
      exact ⟨_, _, rfl⟩
    · obtain ⟨port, pin, hl⟩ := ih hs
      rw [hl]
      exact ⟨port, pin, rfl⟩

/-- C20 fails on the code: a direct call of `lcd_pulseEn` returns with a trace of
one Enable pulse and no write to Register-Select or to a data line; no byte is
transferred, and 1 is not twice 0. -/
theorem bare_pulse_transfers_no_byte :
    runOps [Op.pulseEn] ⟨sampleLcd, []⟩
        = some ⟨sampleLcd, [Event.write Role.EN 0x40020000 1 1, Event.delay 5,
            Event.write Role.EN 0x40020000 1 0]⟩
    ∧ (pulsesFrom Bus.idle [Event.write Role.EN 0x40020000 1 1, Event.delay 5,
          Event.write Role.EN 0x40020000 1 0]).length = 1
    ∧ ([Event.write Role.EN 0x40020000 1 1, Event.delay 5,
          Event.write Role.EN 0x40020000 1 0].filter Event.isRS).length = 0
    ∧ transfers (pulsesFrom Bus.idle [Event.write Role.EN 0x40020000 1 1, Event.delay 5,
          Event.write Role.EN 0x40020000 1 0]) = []
    ∧ (pulsesFrom Bus.idle [Event.write Role.EN 0x40020000 1 1, Event.delay 5,
          Event.write Role.EN 0x40020000 1 0]).length ≠ 2 * 0 := by
  refine ⟨?_, by decide, by decide, by decide, by decide⟩
  rw [runOps_eq]
  rfl

/-- C20 as amended: every sequence `ops` of calls returns, and in the events it
appends the Enable writes alternate high, low from high, each high followed at
once by one delay and then the low, no other line being written in between.  The
bytes transferred are as many as the writes to Register-Select, one per write
call; the Enable pulses are twice the bytes transferred plus one per direct call
of `lcd_pulseEn`, so exactly twice the bytes when there is no such call.  Every
call `op` that emits anything ends with a write of Enable low. -/
theorem enable_pulse_discipline (ops : List Op) (op : Op) (w : World) (bus : Bus) :
    (∃ w', runOps ops w = some w'
      ∧ w'.trace = w.trace ++ (segsOf ops w.lcd).flatMap Seg.events
      ∧ enRun EnPhase.low ((segsOf ops w.lcd).flatMap Seg.events) = some EnPhase.low
      ∧ (((segsOf ops w.lcd).flatMap Seg.events).filter Event.isRS).length
          = ((segsOf ops w.lcd).map Seg.bytes).sum
      ∧ (pulsesFrom bus ((segsOf ops w.lcd).flatMap Seg.events)).length
          = 2 * ((segsOf ops w.lcd).map Seg.bytes).sum + ops.countP Op.isPulseEn
      ∧ (ops.countP Op.isPulseEn = 0 →
          (pulsesFrom bus ((segsOf ops w.lcd).flatMap Seg.events)).length
            = 2 * ((segsOf ops w.lcd).map Seg.bytes).sum))
    ∧ (∃ w', op.run w = some w'
      ∧ w'.trace = w.trace ++ (op.segs w.lcd).flatMap Seg.events
      ∧ ((op.segs w.lcd).flatMap Seg.events ≠ [] →
          ∃ port pin, ((op.segs w.lcd).flatMap Seg.events).getLast?
            = some (Event.write Role.EN port pin 0))) := by
  have hlen := length_pulses_segs (segsOf ops w.lcd) bus
  rw [countP_segsOf] at hlen
  refine ⟨⟨_, runOps_eq ops w, rfl, enRun_segs _, count_rs_segs _, hlen, ?_⟩,
    ⟨_, op.run_handle_segs w, rfl, ?_⟩⟩
  · intro h0
    rw [hlen, h0, Nat.add_zero]
  · intro hne
    apply getLast_segs
    intro hnil
    rw [hnil] at hne
    exact hne rfl

end LCD
